import Mathlib

/-!
# Verification of the drug-dosage-calculator core

A shallow embedding of the domain-logic core of the repository
(`src/calculators.py`, `src/formatters.py`, `src/data_storage.py`),
with theorems settling the specification claims about it.

Python floats are modelled as exact rationals (`ℚ`).  Python's
exception behaviour is made explicit: a dictionary lookup that would
raise `KeyError`, or a division that would raise `ZeroDivisionError`,
is modelled by an `Except PyError` result, so that the code's error
paths are visible in the embedding.
-/

namespace DrugCalc

/-- A Python runtime exception reaching the caller of a core function:
`KeyError` from a dict subscript, `ZeroDivisionError` from `/`. -/
inductive PyError where
  | keyError (key : String)
  | zeroDivision
  deriving DecidableEq, Repr

/-! ## `src/calculators.py` -/

/-- The `concentration_conversion` dict of `calculate_stock_from_powder`
(`calculators.py` lines 54-59): scale factor from a concentration-unit
token to molar.  `none` models a key absent from the dict. -/
def concentration_conversion : String → Option ℚ
  | "M" => some 1
  | "mM" => some (1 / 1000)
  | "µM" => some (1 / 1000000)
  | "nM" => some (1 / 1000000000)
  | _ => none

/-- The `volume_conversion` dict of `calculate_stock_from_powder`
(`calculators.py` lines 62-66): scale factor from a volume-unit token
to liters. -/
def volume_conversion : String → Option ℚ
  | "L" => some 1
  | "mL" => some (1 / 1000)
  | "µL" => some (1 / 1000000)
  | _ => none

/-- The dict returned by `calculate_stock_from_powder`
(`calculators.py` lines 75-80). -/
structure StockResult where
  mass_mg : ℚ
  mass_g : ℚ
  volume : ℚ
  volume_unit : String
  deriving DecidableEq, Repr

/-- `calculate_stock_from_powder` (`calculators.py` lines 11-80).
The two dict subscripts are evaluated in source order; a token absent
from a dict raises `KeyError` with that token. -/
def calculate_stock_from_powder (molecular_weight target_concentration target_volume : ℚ)
    (concentration_unit : String := "mM") (volume_unit : String := "mL") :
    Except PyError StockResult :=
  match concentration_conversion concentration_unit with
  | none => .error (.keyError concentration_unit)
  | some cfac =>
    match volume_conversion volume_unit with
    | none => .error (.keyError volume_unit)
    | some vfac =>
      let concentration_M := target_concentration * cfac
      let volume_L := target_volume * vfac
      let mass_g := concentration_M * volume_L * molecular_weight
      let mass_mg := mass_g * 1000
      .ok ⟨mass_mg, mass_g, target_volume, volume_unit⟩

/-- The dict returned by `calculate_dilution`: either the error dict of
lines 129-132 (`error = True` with a message) or the numeric result dict
of lines 139-146 (`error = False`). -/
inductive DilutionResult where
  | infeasible (message : String)
  | result (stock_volume solvent_volume total_volume : ℚ)
      (volume_unit : String) (dilution_factor : ℚ)
  deriving DecidableEq, Repr

/-- `calculate_dilution` (`calculators.py` lines 83-146).  The guard at
line 128 compares `target_concentration > stock_concentration`; past it,
line 135 divides by `stock_concentration` and line 137 divides by
`target_concentration`, each raising `ZeroDivisionError` on a zero
divisor (divisions are modelled in source order). -/
def calculate_dilution (stock_concentration target_concentration target_volume : ℚ)
    (_concentration_unit : String := "mM") (volume_unit : String := "mL") :
    Except PyError DilutionResult :=
  if target_concentration > stock_concentration then
    .ok (.infeasible "Target concentration cannot exceed stock concentration")
  else if stock_concentration = 0 then
    .error .zeroDivision
  else
    let stock_volume := (target_concentration * target_volume) / stock_concentration
    let solvent_volume := target_volume - stock_volume
    if target_concentration = 0 then
      .error .zeroDivision
    else
      let dilution_factor := stock_concentration / target_concentration
      .ok (.result stock_volume solvent_volume target_volume volume_unit dilution_factor)

/-! ## `src/formatters.py`

`format_number` is built from CPython's `format` semantics for the
`f`-string conversions it uses (`:.2f`, `:.1f`, `:.0f`, `:.4g`) plus the
`rstrip` calls of lines 76-77.  Values are exact rationals; the rounding
of a value to a given number of decimals is round-half-to-even, which is
what CPython's float formatting performs on the exact value of the
double. -/

/-- Attach a Python sign to a magnitude. -/
def signApply (neg : Bool) (q : ℚ) : ℚ := if neg then -q else q

/-- Round a rational to the nearest integer, ties to even (the rounding
CPython's float formatting applies to the exact value). -/
def rhe (x : ℚ) : ℤ :=
  if x - ⌊x⌋ < 1 / 2 then ⌊x⌋
  else if 1 / 2 < x - ⌊x⌋ then ⌊x⌋ + 1
  else if 2 ∣ ⌊x⌋ then ⌊x⌋ else ⌊x⌋ + 1

/-- Base-10 digits, little-endian, with explicit fuel (so that the
kernel can evaluate it); `digitsF fuel n = Nat.digits 10 n` once
`n ≤ fuel`. -/
def digitsF : ℕ → ℕ → List ℕ
  | 0, _ => []
  | _ + 1, 0 => []
  | fuel + 1, n => n % 10 :: digitsF fuel (n / 10)

/-- Base-10 digits of `n`, little-endian (`[]` for `0`). -/
def digs (n : ℕ) : List ℕ := digitsF n n

/-- Decimal rendering of a natural number, most significant digit
first; `0` renders as `"0"`. -/
def natChars (n : ℕ) : List Char :=
  if n = 0 then ['0'] else (digs n).reverse.map Nat.digitChar

/-- Decimal rendering of a fractional part `n < 10^p` with exactly `p`
digits, zero-padded on the left. -/
def fracChars (n p : ℕ) : List Char :=
  List.replicate (p - (digs n).length) '0' ++ (digs n).reverse.map Nat.digitChar

/-- Fixed-point rendering of the scaled magnitude `n` (the value is
`n / 10^p`) with `p` digits after the point and an optional minus
sign, as CPython's `%.pf` renders it. -/
def renderFixed (neg : Bool) (n p : ℕ) : List Char :=
  (if neg then ['-'] else []) ++
    (if p = 0 then natChars n
     else natChars (n / 10 ^ p) ++ '.' :: fracChars (n % 10 ^ p) p)

/-- Drop the longest suffix of characters satisfying `p` (the behaviour
of Python's `str.rstrip` for a single-character set). -/
def dropWhileEnd (p : Char → Bool) (l : List Char) : List Char :=
  (l.reverse.dropWhile p).reverse

/-- Lines 76-77 of `formatters.py`: if the string contains a period,
`rstrip('0')` then `rstrip('.')`.  (Also the trailing-zero removal
CPython's `%g` conversion performs on its own output.) -/
def pyStrip (l : List Char) : List Char :=
  if l.contains '.' then
    dropWhileEnd (fun c => c == '.') (dropWhileEnd (fun c => c == '0') l)
  else l

/-- Number of trailing decimal zeros of `n`, with fuel. -/
def tzF : ℕ → ℕ → ℕ
  | 0, _ => 0
  | fuel + 1, n => if n % 10 = 0 ∧ n ≠ 0 then tzF fuel (n / 10) + 1 else 0

/-- Number of trailing decimal zeros of `n ≠ 0`: the largest `z` with
`10^z ∣ n` (used to describe what the `rstrip` calls remove). -/
def tz (n : ℕ) : ℕ := tzF n n

/-- CPython's `f"{x:.pf}"`: round `|x| * 10^p` half-to-even and render
with `p` decimals, keeping the sign of `x`. -/
def pyFixed (p : ℕ) (x : ℚ) : List Char :=
  renderFixed (decide (x < 0)) (rhe (|x| * 10 ^ p)).toNat p

/-- Smallest `k` (given sufficient fuel) with `den ≤ num * 10^k`. -/
def expSearch : ℕ → ℕ → ℕ → ℕ
  | 0, _, _ => 0
  | fuel + 1, num, den => if den ≤ num then 0 else expSearch fuel (num * 10) den + 1

/-- The decimal exponent of `x ≠ 0`: the unique `e` with
`10^e ≤ |x| < 10^(e+1)`. -/
def decExp (x : ℚ) : ℤ :=
  if x.den ≤ x.num.natAbs then ((digs (x.num.natAbs / x.den)).length : ℤ) - 1
  else -(expSearch (digs x.den).length x.num.natAbs x.den : ℤ)

/-- Exponent field of CPython's scientific notation: at least two
digits. -/
def expChars (k : ℕ) : List Char :=
  if k < 10 then '0' :: natChars k else natChars k

/-- Rendering step of CPython's `%.4g` once the four-digit mantissa `m`
and the exponent `e` of the rounded value are known: fixed notation
(with `3 - e` decimals) when `-4 ≤ e < 4`, scientific notation
otherwise, stripping insignificant trailing zeros of the mantissa. -/
def pyGen4core (neg : Bool) (m : ℕ) (e : ℤ) : List Char :=
  if -4 ≤ e ∧ e < 4 then pyStrip (renderFixed neg m (3 - e).toNat)
  else
    pyStrip (renderFixed neg m 3) ++
      'e' :: (if e < 0 then '-' else '+') :: expChars e.natAbs

/-- CPython's `f"{x:.4g}"`: round to four significant digits giving a
mantissa `m ∈ [1000, 10000)` (a carry to `10000` bumps the exponent),
then render via `pyGen4core`. -/
def pyGen4 (x : ℚ) : List Char :=
  if x = 0 then ['0']
  else if (rhe (|x| * 10 ^ (3 - decExp x))).toNat = 10000 then
    pyGen4core (decide (x < 0)) 1000 (decExp x + 1)
  else
    pyGen4core (decide (x < 0)) (rhe (|x| * 10 ^ (3 - decExp x))).toNat (decExp x)

/-- `format_number` (`formatters.py` lines 16-79), on an exact value;
`none` models Python `None`. -/
def format_number : Option ℚ → String
  | none => "0"
  | some v =>
    if v = 0 then "0"
    else
      String.mk (pyStrip (
        if |v| < 1 / 100 then pyGen4 v
        else if |v| < 10 then pyFixed 2 v
        else if |v| < 100 then pyFixed 1 v
        else pyFixed 0 v))

/-! ### CPython `float(str)` parsing

Modelled for ASCII float literals (optional sign, digits with an
optional point, optional exponent, and the `inf`/`infinity`/`nan`
words, case-insensitively, after stripping whitespace).  PEP-515
underscore separators and non-ASCII digits are not modelled. -/

/-- The value a Python `float(...)` call produces. -/
inductive PyFloatVal where
  | finite (q : ℚ)
  | inf (neg : Bool)
  | nan
  deriving DecidableEq, Repr

/-- Value of an ASCII digit character. -/
def digVal? (c : Char) : Option ℕ :=
  if 48 ≤ c.toNat ∧ c.toNat ≤ 57 then some (c.toNat - 48) else none

/-- Value of a string of digit characters, least significant first
(`some 0` on the empty list; `none` if any character is not a digit). -/
def digitsVal? : List Char → Option ℕ
  | [] => some 0
  | c :: t => (digVal? c).bind fun d => (digitsVal? t).map fun v => d + 10 * v

/-- Value of a string of digit characters, most significant first
(`some 0` on the empty list; `none` if any character is not a digit). -/
def charsNat? (l : List Char) : Option ℕ :=
  digitsVal? l.reverse

/-- Unsigned mantissa: `digits`, `digits.digits`, `digits.` or
`.digits`. -/
def parseMant (l : List Char) : Option ℚ :=
  let i := l.takeWhile fun c => !(c == '.')
  match l.dropWhile (fun c => !(c == '.')) with
  | [] => if i.isEmpty then none else (charsNat? i).map fun n => (n : ℚ)
  | _ :: f =>
    if (i.isEmpty && f.isEmpty) || f.contains '.' then none
    else
      match charsNat? i, charsNat? f with
      | some ni, some nf => some ((ni : ℚ) + (nf : ℚ) / 10 ^ f.length)
      | _, _ => none

/-- Exponent field: optionally signed nonempty digit string. -/
def parseExp (l : List Char) : Option ℤ :=
  match l with
  | [] => none
  | c :: rest =>
    if c == '+' then (if rest.isEmpty then none else (charsNat? rest).map fun n => (n : ℤ))
    else if c == '-' then (if rest.isEmpty then none else (charsNat? rest).map fun n => -(n : ℤ))
    else (charsNat? l).map fun n => (n : ℤ)

/-- Unsigned numeric literal: mantissa, optionally followed by `e`/`E`
and an exponent. -/
def pyFloatNum (l : List Char) (neg : Bool) : Option PyFloatVal :=
  let m := l.takeWhile fun c => !(c == 'e' || c == 'E')
  match l.dropWhile (fun c => !(c == 'e' || c == 'E')) with
  | [] => (parseMant m).map fun q => .finite (signApply neg q)
  | _ :: ex =>
    match parseMant m, parseExp ex with
    | some q, some e => some (.finite (signApply neg (q * 10 ^ e)))
    | _, _ => none

/-- Unsigned literal including the `inf`/`infinity`/`nan` words. -/
def pyFloatMag (l : List Char) (neg : Bool) : Option PyFloatVal :=
  let low := l.map Char.toLower
  if low = "inf".toList || low = "infinity".toList then some (.inf neg)
  else if low = "nan".toList then some .nan
  else pyFloatNum l neg

/-- Signed literal. -/
def pyFloatCore : List Char → Option PyFloatVal
  | [] => none
  | c :: rest =>
    if c == '+' then pyFloatMag rest false
    else if c == '-' then pyFloatMag rest true
    else pyFloatMag (c :: rest) false

/-- Python `str.strip()` whitespace (ASCII part). -/
def isPyWs (c : Char) : Bool :=
  c == ' ' || c == '\t' || c == '\n' || c == '\r' || c == '\x0b' || c == '\x0c'

/-- Strip leading and trailing whitespace from a character list. -/
def trimL (l : List Char) : List Char :=
  ((l.dropWhile isPyWs).reverse.dropWhile isPyWs).reverse

/-- Python's `float(s)` on a string, as a value or a parse failure. -/
def pyFloat (s : String) : Option PyFloatVal := pyFloatCore (trimL s.toList)

/-- The `(is_valid, cleaned_value, error_message)` triple returned by
`validate_decimal_input`. -/
structure ValidationTriple where
  is_valid : Bool
  cleaned_value : String
  error_message : String
  deriving DecidableEq, Repr

/-- `validate_decimal_input` (`formatters.py` lines 82-135): strip,
reject empty input, reject any comma, then accept exactly the strings
`float(...)` parses. -/
def validate_decimal_input (input : String) : ValidationTriple :=
  let s := trimL input.toList
  if s.isEmpty then ⟨false, "", "Please enter a value"⟩
  else if s.contains ',' then
    ⟨false, String.mk s, "Please use period (.) for decimals, not comma (,)"⟩
  else if (pyFloatCore s).isSome then ⟨true, String.mk s, ""⟩
  else ⟨false, String.mk s, "Please enter a valid number"⟩

/-! ## `src/data_storage.py` -/

/-- One entry of the JSON history file (`data_storage.py` lines 95-102).
The `inputs` and `results` JSON objects are modelled as key-value lists. -/
structure CalculationRecord where
  timestamp : String
  calculation_type : String
  drug_name : String
  solvent : String
  inputs : List (String × String)
  results : List (String × String)
  deriving DecidableEq, Repr

/-- Outcome of `open` + `json.load` on the history file: a parsed list,
a `json.JSONDecodeError`, or some other I/O exception. -/
inductive ReadOutcome (α : Type) where
  | ok (value : α)
  | decodeError
  | ioError
  deriving DecidableEq, Repr

/-- `CalculationHistory._load_history` (`data_storage.py` lines 53-69),
parametrized by the outcome of reading and JSON-decoding the file: a
decode failure is caught and turned into the empty list; any other
exception is re-raised as `IOError`. -/
def CalculationHistory.load_history
    (read : ReadOutcome (List CalculationRecord)) :
    Except String (List CalculationRecord) :=
  match read with
  | .ok h => .ok h
  | .decodeError => .ok []
  | .ioError => .error "Failed to load history"

/-- `CalculationHistory.get_all_calculations` (`data_storage.py` lines
107-118): the loaded history in reverse (newest first). -/
def CalculationHistory.get_all_calculations
    (read : ReadOutcome (List CalculationRecord)) :
    Except String (List CalculationRecord) :=
  (CalculationHistory.load_history read).map List.reverse

/-- `CalculationHistory.get_calculation_count` (`data_storage.py` lines
136-145): the length of the loaded history. -/
def CalculationHistory.get_calculation_count
    (read : ReadOutcome (List CalculationRecord)) :
    Except String ℕ :=
  (CalculationHistory.load_history read).map List.length

/-! ## Supporting lemmas: characters and digits -/

theorem char_toNat_injective {a b : Char} (h : a.toNat = b.toNat) : a = b := by
  have ha := Char.ofNat_toNat a
  rw [h, Char.ofNat_toNat] at ha
  exact ha.symm

theorem char_beq_false {a b : Char} (h : a.toNat ≠ b.toNat) : (a == b) = false := by
  rw [beq_eq_false_iff_ne]
  exact fun hab => h (hab ▸ rfl)

theorem char_beq_true {a b : Char} (h : a.toNat = b.toNat) : (a == b) = true := by
  rw [beq_iff_eq]
  exact char_toNat_injective h

theorem toLower_of_toNat_lt {c : Char} (h : c.toNat < 65) : c.toLower = c := by
  rw [Char.toLower]
  exact if_neg (by omega)

theorem digitChar_toNat {d : ℕ} (h : d < 10) : (Nat.digitChar d).toNat = 48 + d := by
  interval_cases d <;> rfl

theorem digitsF_eq_digits (fuel : ℕ) : ∀ n, n ≤ fuel → digitsF fuel n = Nat.digits 10 n := by
  induction fuel with
  | zero =>
    intro n h
    interval_cases n
    simp [digitsF]
  | succ fuel ih =>
    intro n h
    match n with
    | 0 => simp [digitsF]
    | n + 1 =>
      have h10 : (n + 1) / 10 < n + 1 := Nat.div_lt_self (Nat.succ_pos n) (by norm_num)
      rw [show digitsF (fuel + 1) (n + 1) = (n + 1) % 10 :: digitsF fuel ((n + 1) / 10) from rfl,
        ih _ (by omega), Nat.digits_def' (by norm_num : (1:ℕ) < 10) (Nat.succ_pos n)]

theorem digs_eq (n : ℕ) : digs n = Nat.digits 10 n := digitsF_eq_digits n n le_rfl

theorem digs_lt_ten (n : ℕ) : ∀ d ∈ digs n, d < 10 := by
  rw [digs_eq]
  exact fun d hd => Nat.digits_lt_base (by norm_num) hd

/-! ## Supporting lemmas: round-half-even -/

theorem rhe_intCast (n : ℤ) : rhe (n : ℚ) = n := by
  unfold rhe
  rw [Int.floor_intCast]
  norm_num

theorem rhe_natCast (n : ℕ) : rhe (n : ℚ) = n := by
  have : ((n : ℤ) : ℚ) = (n : ℚ) := by push_cast; ring
  rw [← this, rhe_intCast]

theorem floor_le_rhe (x : ℚ) : ⌊x⌋ ≤ rhe x := by
  unfold rhe
  split_ifs <;> omega

theorem rhe_le_floor_add_one (x : ℚ) : rhe x ≤ ⌊x⌋ + 1 := by
  unfold rhe
  split_ifs <;> omega

theorem le_rhe {a : ℤ} {x : ℚ} (h : (a : ℚ) ≤ x) : a ≤ rhe x :=
  le_trans (Int.le_floor.mpr h) (floor_le_rhe x)

theorem rhe_le {a : ℤ} {x : ℚ} (h : x ≤ (a : ℚ)) : rhe x ≤ a := by
  rcases h.lt_or_eq with hlt | heq
  · have := Int.floor_lt.mpr hlt
    have := rhe_le_floor_add_one x
    omega
  · rw [heq, rhe_intCast]

theorem rhe_nonneg {x : ℚ} (h : 0 ≤ x) : 0 ≤ rhe x :=
  le_rhe (by exact_mod_cast h)

/-! ## Supporting lemmas: generic list facts -/

theorem dropWhile_eq_self_of_all {α} (p : α → Bool) (l : List α)
    (h : ∀ a ∈ l, p a = false) : l.dropWhile p = l := by
  induction l with
  | nil => rfl
  | cons a l ih => simp [List.dropWhile_cons, h a (by simp)]

theorem takeWhile_append_of_all {α} (p : α → Bool) (l₁ l₂ : List α)
    (h : ∀ a ∈ l₁, p a = true) : (l₁ ++ l₂).takeWhile p = l₁ ++ l₂.takeWhile p := by
  induction l₁ with
  | nil => simp
  | cons a l ih =>
    simp [h a (by simp), ih fun b hb => h b (by simp [hb])]

theorem dropWhile_append_of_all {α} (p : α → Bool) (l₁ l₂ : List α)
    (h : ∀ a ∈ l₁, p a = true) : (l₁ ++ l₂).dropWhile p = l₂.dropWhile p := by
  induction l₁ with
  | nil => simp
  | cons a l ih =>
    simp [h a (by simp), ih fun b hb => h b (by simp [hb])]

theorem takeWhile_eq_self_of_all {α} (p : α → Bool) (l : List α)
    (h : ∀ a ∈ l, p a = true) : l.takeWhile p = l := by
  induction l with
  | nil => rfl
  | cons a l ih =>
    simp [h a (by simp), ih fun b hb => h b (by simp [hb])]

theorem dropWhile_eq_nil_of_all {α} (p : α → Bool) (l : List α)
    (h : ∀ a ∈ l, p a = true) : l.dropWhile p = [] := by
  induction l with
  | nil => rfl
  | cons a l ih =>
    simp [h a (by simp), ih fun b hb => h b (by simp [hb])]

/-! ## Supporting lemmas: character classes of rendered strings -/

theorem digitChars_digit (n : ℕ) :
    ∀ c ∈ (digs n).reverse.map Nat.digitChar, 48 ≤ c.toNat ∧ c.toNat ≤ 57 := by
  intro c hc
  rcases List.mem_map.mp hc with ⟨d, hd, rfl⟩
  have hd10 : d < 10 := digs_lt_ten n d (List.mem_reverse.mp hd)
  rw [digitChar_toNat hd10]
  omega

theorem natChars_digit (n : ℕ) : ∀ c ∈ natChars n, 48 ≤ c.toNat ∧ c.toNat ≤ 57 := by
  unfold natChars
  split_ifs with h
  · intro c hc
    simp only [List.mem_singleton] at hc
    subst hc
    decide
  · exact digitChars_digit n

theorem fracChars_digit (n p : ℕ) : ∀ c ∈ fracChars n p, 48 ≤ c.toNat ∧ c.toNat ≤ 57 := by
  unfold fracChars
  intro c hc
  rcases List.mem_append.mp hc with h | h
  · rw [List.eq_of_mem_replicate h]
    decide
  · exact digitChars_digit n c h

theorem natChars_ne_nil (n : ℕ) : natChars n ≠ [] := by
  unfold natChars
  split_ifs with h
  · simp
  · simp only [ne_eq, List.map_eq_nil_iff, List.reverse_eq_nil_iff, digs_eq]
    exact Nat.digits_ne_nil_iff_ne_zero.mpr h

theorem renderFixed_chars (neg : Bool) (n p : ℕ) :
    ∀ c ∈ renderFixed neg n p,
      c.toNat = 45 ∨ c.toNat = 46 ∨ (48 ≤ c.toNat ∧ c.toNat ≤ 57) := by
  unfold renderFixed
  intro c hc
  rcases List.mem_append.mp hc with h | h
  · cases neg
    · simp at h
    · simp at h
      subst h
      left
      rfl
  · split_ifs at h with hp
    · exact Or.inr (Or.inr (natChars_digit n c h))
    · rcases List.mem_append.mp h with h1 | h1
      · exact Or.inr (Or.inr (natChars_digit _ c h1))
      · rcases List.mem_cons.mp h1 with rfl | h2
        · exact Or.inr (Or.inl rfl)
        · exact Or.inr (Or.inr (fracChars_digit _ p c h2))

/-! ## Supporting lemmas: unfolding `format_number` by magnitude band -/

theorem format_number_some {x : ℚ} (hx : x ≠ 0) :
    format_number (some x) = String.mk (pyStrip (
      if |x| < 1 / 100 then pyGen4 x
      else if |x| < 10 then pyFixed 2 x
      else if |x| < 100 then pyFixed 1 x
      else pyFixed 0 x)) := by
  simp [format_number, hx]

theorem format_number_band0 {x : ℚ} (h : 100 ≤ |x|) :
    format_number (some x) = String.mk (pyStrip (pyFixed 0 x)) := by
  have hx : x ≠ 0 := by
    intro h0
    rw [h0, abs_zero] at h
    norm_num at h
  rw [format_number_some hx, if_neg (by linarith), if_neg (by linarith),
    if_neg (not_lt.mpr h)]

theorem format_number_band1 {x : ℚ} (h1 : 10 ≤ |x|) (h2 : |x| < 100) :
    format_number (some x) = String.mk (pyStrip (pyFixed 1 x)) := by
  have hx : x ≠ 0 := by
    intro h0
    rw [h0, abs_zero] at h1
    norm_num at h1
  rw [format_number_some hx, if_neg (by linarith), if_neg (not_lt.mpr h1), if_pos h2]

theorem format_number_band2 {x : ℚ} (h1 : 1 / 100 ≤ |x|) (h2 : |x| < 10) :
    format_number (some x) = String.mk (pyStrip (pyFixed 2 x)) := by
  have hx : x ≠ 0 := by
    intro h0
    rw [h0, abs_zero] at h1
    norm_num at h1
  rw [format_number_some hx, if_neg (not_lt.mpr h1), if_pos h2]

theorem format_number_bandg {x : ℚ} (hx : x ≠ 0) (h : |x| < 1 / 100) :
    format_number (some x) = String.mk (pyStrip (pyGen4 x)) := by
  rw [format_number_some hx, if_pos h]

/-! ## Supporting lemmas: digit-string values -/

theorem digVal?_digitChar {d : ℕ} (h : d < 10) : digVal? (Nat.digitChar d) = some d := by
  interval_cases d <;> decide

theorem digitsVal?_map_digitChar (ds : List ℕ) (h : ∀ d ∈ ds, d < 10) :
    digitsVal? (ds.map Nat.digitChar) = some (Nat.ofDigits 10 ds) := by
  induction ds with
  | nil => simp [digitsVal?, Nat.ofDigits]
  | cons d t ih =>
    rw [List.map_cons]
    simp only [digitsVal?, digVal?_digitChar (h d (by simp)),
      ih fun x hx => h x (by simp [hx]), Option.some_bind, Option.map_some',
      Nat.ofDigits_cons]

theorem digitsVal?_replicate_zero (k : ℕ) : digitsVal? (List.replicate k '0') = some 0 := by
  induction k with
  | zero => rfl
  | succ k ih =>
    rw [List.replicate_succ]
    simp only [digitsVal?, ih]
    decide

theorem digitsVal?_append {l1 l2 : List Char} {v1 v2 : ℕ}
    (h1 : digitsVal? l1 = some v1) (h2 : digitsVal? l2 = some v2) :
    digitsVal? (l1 ++ l2) = some (v1 + 10 ^ l1.length * v2) := by
  induction l1 generalizing v1 with
  | nil =>
    simp only [digitsVal?, Option.some.injEq] at h1
    subst h1
    simpa using h2
  | cons c t ih =>
    cases hd : digVal? c with
    | none => simp [digitsVal?, hd] at h1
    | some d =>
      cases ht : digitsVal? t with
      | none => simp [digitsVal?, hd, ht] at h1
      | some vt =>
        simp only [digitsVal?, hd, ht, Option.some_bind, Option.map_some',
          Option.some.injEq] at h1
        simp only [List.cons_append, digitsVal?, hd, Option.some_bind,
          List.length_cons, List.append_eq]
        rw [ih ht]
        simp only [Option.map_some', Option.some.injEq]
        rw [← h1]
        ring

theorem charsNat?_digitChars (n : ℕ) :
    charsNat? ((digs n).reverse.map Nat.digitChar) = some n := by
  unfold charsNat?
  rw [List.map_reverse, List.reverse_reverse,
    digitsVal?_map_digitChar _ (digs_lt_ten n), digs_eq, Nat.ofDigits_digits]

theorem charsNat?_natChars (n : ℕ) : charsNat? (natChars n) = some n := by
  unfold natChars
  split_ifs with h
  · subst h; decide
  · exact charsNat?_digitChars n

theorem charsNat?_fracChars (n p : ℕ) : charsNat? (fracChars n p) = some n := by
  unfold charsNat? fracChars
  rw [List.reverse_append, List.reverse_replicate, List.map_reverse,
    List.reverse_reverse,
    digitsVal?_append (digitsVal?_map_digitChar _ (digs_lt_ten n))
      (digitsVal?_replicate_zero _),
    digs_eq, Nat.ofDigits_digits]
  simp

theorem digs_len_le {n p : ℕ} (h : n < 10 ^ p) : (digs n).length ≤ p := by
  rw [digs_eq]
  rcases eq_or_ne n 0 with rfl | hn
  · simp
  · rw [Nat.digits_len 10 n (by norm_num) hn]
    have := (Nat.lt_pow_iff_log_lt (by norm_num : 1 < 10) hn).mp h
    omega

theorem fracChars_length {n p : ℕ} (h : n < 10 ^ p) : (fracChars n p).length = p := by
  unfold fracChars
  have := digs_len_le h
  simp only [List.length_append, List.length_replicate, List.length_map,
    List.length_reverse]
  omega

/-! ## Supporting lemmas: parsing rendered strings -/

theorem digit_beq_false {c : Char} (h : 48 ≤ c.toNat ∧ c.toNat ≤ 57) (a : Char)
    (ha : a.toNat < 48 ∨ 57 < a.toNat) : (c == a) = false :=
  char_beq_false (by omega)

theorem digit_bne_dot {c : Char} (h : 48 ≤ c.toNat ∧ c.toNat ≤ 57) :
    (!(c == '.')) = true := by
  rw [digit_beq_false h '.' (by decide)]
  rfl

theorem le57_bne_eE {c : Char} (h : c.toNat ≤ 57) :
    (!(c == 'e' || c == 'E')) = true := by
  rw [char_beq_false (b := 'e') (by intro hh; rw [show ('e' : Char).toNat = 101 by decide] at hh; omega),
    char_beq_false (b := 'E') (by intro hh; rw [show ('E' : Char).toNat = 69 by decide] at hh; omega)]
  rfl

theorem contains_eq_false {l : List Char} {a : Char}
    (h : ∀ c ∈ l, c.toNat ≠ a.toNat) : l.contains a = false := by
  by_contra hc
  rw [Bool.not_eq_false] at hc
  have hm : a ∈ l := List.mem_of_elem_eq_true hc
  exact h a hm rfl

theorem contains_eq_true {l : List Char} {a : Char} (h : a ∈ l) :
    l.contains a = true := List.elem_eq_true_of_mem h

theorem parseMant_digits {l : List Char} (hne : l ≠ [])
    (hd : ∀ c ∈ l, 48 ≤ c.toNat ∧ c.toNat ≤ 57) {n : ℕ} (hv : charsNat? l = some n) :
    parseMant l = some (n : ℚ) := by
  unfold parseMant
  have hall : ∀ c ∈ l, (!(c == '.')) = true := fun c hc => digit_bne_dot (hd c hc)
  rw [takeWhile_eq_self_of_all _ _ hall, dropWhile_eq_nil_of_all _ _ hall]
  simp [List.isEmpty_iff, hne, hv]

theorem parseMant_point (a b p : ℕ) (hb : b < 10 ^ p) :
    parseMant (natChars a ++ '.' :: fracChars b p) =
      some ((a : ℚ) + (b : ℚ) / 10 ^ p) := by
  unfold parseMant
  have hna : ∀ c ∈ natChars a, (!(c == '.')) = true :=
    fun c hc => digit_bne_dot (natChars_digit a c hc)
  rw [takeWhile_append_of_all _ _ _ hna, dropWhile_append_of_all _ _ _ hna]
  have hdot : ((!(('.' : Char) == '.')) = false) := by decide
  rw [List.takeWhile_cons, List.dropWhile_cons]
  simp only [hdot, Bool.false_eq_true, if_false, List.append_nil]
  have hfa : (natChars a).isEmpty = false := by
    rw [List.isEmpty_eq_false_iff_exists_mem]
    rcases List.exists_cons_of_ne_nil (natChars_ne_nil a) with ⟨c, t, hct⟩
    exact ⟨c, by rw [hct]; simp⟩
  have hfc : (fracChars b p).contains '.' = false :=
    contains_eq_false fun c hc => by
      have := fracChars_digit b p c hc
      rw [show ('.' : Char).toNat = 46 by decide]
      omega
  rw [hfa, hfc]
  simp only [Bool.false_and, Bool.or_self, Bool.false_eq_true, if_false,
    charsNat?_natChars, charsNat?_fracChars, fracChars_length hb]

theorem natCast_div_add_mod_div (n p : ℕ) :
    ((n / 10 ^ p : ℕ) : ℚ) + ((n % 10 ^ p : ℕ) : ℚ) / 10 ^ p = (n : ℚ) / 10 ^ p := by
  have h := Nat.div_add_mod n (10 ^ p)
  have h10 : ((10 : ℚ) ^ p) ≠ 0 := by positivity
  field_simp
  exact_mod_cast congrArg (Nat.cast (R := ℚ)) (Nat.div_add_mod' n (10 ^ p))

theorem pyFloatNum_no_eE {l : List Char} (neg : Bool)
    (h : ∀ c ∈ l, (!(c == 'e' || c == 'E')) = true) :
    pyFloatNum l neg = (parseMant l).map fun q => .finite (signApply neg q) := by
  unfold pyFloatNum
  rw [takeWhile_eq_self_of_all _ _ h, dropWhile_eq_nil_of_all _ _ h]

theorem pyFloatMag_digit_head (c : Char) (t : List Char) (neg : Bool)
    (hc : 48 ≤ c.toNat ∧ c.toNat ≤ 57) :
    pyFloatMag (c :: t) neg = pyFloatNum (c :: t) neg := by
  have hlc : c.toLower = c := toLower_of_toNat_lt (by omega)
  have hci : c ≠ 'i' := by
    intro he
    rw [he, show ('i' : Char).toNat = 105 by decide] at hc
    omega
  have hcn : c ≠ 'n' := by
    intro he
    rw [he, show ('n' : Char).toNat = 110 by decide] at hc
    omega
  have g1 : ¬(c :: t.map Char.toLower = "inf".toList) := by
    rw [show "inf".toList = 'i' :: ['n', 'f'] by decide]
    intro hh
    injection hh with hh1 _
    exact hci hh1
  have g2 : ¬(c :: t.map Char.toLower = "infinity".toList) := by
    rw [show "infinity".toList = 'i' :: ['n', 'f', 'i', 'n', 'i', 't', 'y'] by decide]
    intro hh
    injection hh with hh1 _
    exact hci hh1
  have g3 : ¬(c :: t.map Char.toLower = "nan".toList) := by
    rw [show "nan".toList = 'n' :: ['a', 'n'] by decide]
    intro hh
    injection hh with hh1 _
    exact hcn hh1
  have hcond1 : ¬(c :: List.map Char.toLower t = "inf".toList ∨
      c :: List.map Char.toLower t = "infinity".toList) := by
    rintro (hh | hh)
    · exact g1 hh
    · exact g2 hh
  simp only [pyFloatMag, List.map_cons, hlc]
  rw [if_neg (by simpa using hcond1), if_neg (by simpa using g3)]

theorem pyFloatCore_cons (c : Char) (t : List Char) :
    pyFloatCore (c :: t) =
      if c == '+' then pyFloatMag t false
      else if c == '-' then pyFloatMag t true
      else pyFloatMag (c :: t) false := rfl

theorem pyFloatMag_renderBody (neg : Bool) (n p : ℕ) :
    pyFloatMag (if p = 0 then natChars n
      else natChars (n / 10 ^ p) ++ '.' :: fracChars (n % 10 ^ p) p) neg =
      some (.finite (signApply neg ((n : ℚ) / 10 ^ p))) := by
  split_ifs with hp
  · subst hp
    rcases List.exists_cons_of_ne_nil (natChars_ne_nil n) with ⟨c, t, hct⟩
    have hcd : 48 ≤ c.toNat ∧ c.toNat ≤ 57 := natChars_digit n c (by rw [hct]; simp)
    rw [hct, pyFloatMag_digit_head c t neg hcd, ← hct, pyFloatNum_no_eE neg
      fun d hd => le57_bne_eE (natChars_digit n d hd).2]
    rw [parseMant_digits (natChars_ne_nil n) (natChars_digit n) (charsNat?_natChars n)]
    simp
  · have hb : n % 10 ^ p < 10 ^ p := Nat.mod_lt _ (by positivity)
    have hchars : ∀ d ∈ natChars (n / 10 ^ p) ++ '.' :: fracChars (n % 10 ^ p) p,
        d.toNat ≤ 57 := by
      intro d hd
      rcases List.mem_append.mp hd with h1 | h1
      · exact (natChars_digit _ d h1).2
      · rcases List.mem_cons.mp h1 with rfl | h2
        · decide
        · exact (fracChars_digit _ _ d h2).2
    rcases List.exists_cons_of_ne_nil (natChars_ne_nil (n / 10 ^ p)) with ⟨c, t, hct⟩
    have hcd : 48 ≤ c.toNat ∧ c.toNat ≤ 57 :=
      natChars_digit _ c (by rw [hct]; simp)
    rw [hct, List.cons_append, pyFloatMag_digit_head c _ neg hcd, ← List.cons_append,
      ← hct, pyFloatNum_no_eE neg fun d hd => le57_bne_eE (hchars d hd)]
    rw [parseMant_point (n / 10 ^ p) (n % 10 ^ p) p hb, natCast_div_add_mod_div]
    rfl

theorem pyFloatCore_renderFixed (neg : Bool) (n p : ℕ) :
    pyFloatCore (renderFixed neg n p) =
      some (.finite (signApply neg ((n : ℚ) / 10 ^ p))) := by
  unfold renderFixed
  cases neg
  · rw [show (if (false : Bool) then (['-'] : List Char) else []) = [] from rfl,
      List.nil_append]
    have hbody : ∃ c t, (if p = 0 then natChars n
        else natChars (n / 10 ^ p) ++ '.' :: fracChars (n % 10 ^ p) p) = c :: t ∧
        48 ≤ c.toNat ∧ c.toNat ≤ 57 := by
      split_ifs with hp
      · rcases List.exists_cons_of_ne_nil (natChars_ne_nil n) with ⟨c, t, hct⟩
        exact ⟨c, t, hct, natChars_digit n c (by rw [hct]; simp)⟩
      · rcases List.exists_cons_of_ne_nil (natChars_ne_nil (n / 10 ^ p)) with ⟨c, t, hct⟩
        exact ⟨c, t ++ '.' :: fracChars (n % 10 ^ p) p, by rw [hct, List.cons_append],
          natChars_digit _ c (by rw [hct]; simp)⟩
    rcases hbody with ⟨c, t, hct, hcd⟩
    rw [hct, pyFloatCore_cons, digit_beq_false hcd '+' (by decide),
      digit_beq_false hcd '-' (by decide)]
    simp only [Bool.false_eq_true, if_false]
    rw [← hct, pyFloatMag_renderBody]
  · rw [show (if (true : Bool) then (['-'] : List Char) else []) = ['-'] from rfl,
      List.singleton_append, pyFloatCore_cons]
    simp only [show (('-' : Char) == '+') = false by decide,
      show (('-' : Char) == '-') = true by decide, Bool.false_eq_true, if_false, if_true]
    exact pyFloatMag_renderBody true n p

/-! ## Supporting lemmas: what `pyStrip` does to a rendered string -/

theorem tzF_spec : ∀ fuel n, n ≤ fuel → n ≠ 0 →
    10 ^ tzF fuel n ∣ n ∧ (n / 10 ^ tzF fuel n) % 10 ≠ 0 ∧ n / 10 ^ tzF fuel n ≠ 0 := by
  intro fuel
  induction fuel with
  | zero => intro n h hn; omega
  | succ fuel ih =>
    intro n h hn
    rw [show tzF (fuel + 1) n = if n % 10 = 0 ∧ n ≠ 0 then tzF fuel (n / 10) + 1 else 0
      from rfl]
    split_ifs with hcond
    · have hn10 : n / 10 ≠ 0 := by omega
      have hle : n / 10 ≤ fuel := by omega
      obtain ⟨hdvd, hmod, hne⟩ := ih (n / 10) hle hn10
      have heq : n / 10 ^ (tzF fuel (n / 10) + 1) = n / 10 / 10 ^ tzF fuel (n / 10) := by
        rw [Nat.div_div_eq_div_mul, pow_succ, mul_comm]
      refine ⟨?_, by rw [heq]; exact hmod, by rw [heq]; exact hne⟩
      rcases hdvd with ⟨c, hc⟩
      exact ⟨c, by rw [pow_succ, mul_comm (10 ^ tzF fuel (n / 10)) 10, mul_assoc, ← hc]; omega⟩
    · have hmod : n % 10 ≠ 0 := fun hmod => hcond ⟨hmod, hn⟩
      simp only [pow_zero, Nat.div_one]
      exact ⟨one_dvd n, hmod, hn⟩

theorem tz_spec (n : ℕ) (hn : n ≠ 0) :
    10 ^ tz n ∣ n ∧ (n / 10 ^ tz n) % 10 ≠ 0 ∧ n / 10 ^ tz n ≠ 0 :=
  tzF_spec n n le_rfl hn

theorem digs_zero : digs 0 = [] := rfl

theorem digs_cons (r : ℕ) (hr : r ≠ 0) : digs r = r % 10 :: Nat.digits 10 (r / 10) := by
  rw [digs_eq, Nat.digits_def' (by norm_num : (1:ℕ) < 10) (Nat.pos_of_ne_zero hr)]

theorem digs_mul_pow (m : ℕ) (hm : m ≠ 0) :
    ∀ z, digs (m * 10 ^ z) = List.replicate z 0 ++ digs m := by
  intro z
  induction z with
  | zero => simp
  | succ z ih =>
    have h1 : m * 10 ^ (z + 1) = m * 10 ^ z * 10 := by ring
    have h2 : m * 10 ^ z * 10 ≠ 0 := by positivity
    rw [h1, digs_cons _ h2, Nat.mul_mod_left, Nat.mul_div_cancel _ (by norm_num : 0 < 10),
      ← digs_eq, ih, List.replicate_succ, List.cons_append]

theorem dropWhile_append_ne_nil {α} (p : α → Bool) (X Y : List α)
    (hX : X.dropWhile p ≠ []) : (X ++ Y).dropWhile p = X.dropWhile p ++ Y := by
  induction X with
  | nil => exact absurd rfl hX
  | cons c t ih =>
    by_cases hc : p c = true
    · simp only [List.dropWhile_cons, hc, if_true] at hX
      simp only [List.cons_append, List.dropWhile_cons, hc, if_true]
      exact ih hX
    · rw [Bool.not_eq_true] at hc
      simp [List.dropWhile_cons, hc]

theorem dropWhileEnd_append (p : Char → Bool) (A B : List Char) :
    dropWhileEnd p (A ++ B) =
      if dropWhileEnd p B = [] then dropWhileEnd p A else A ++ dropWhileEnd p B := by
  unfold dropWhileEnd
  rw [List.reverse_append]
  by_cases hB : B.reverse.dropWhile p = []
  · rw [if_pos (by rw [hB]; rfl)]
    rw [List.dropWhile_eq_nil_iff] at hB
    rw [dropWhile_append_of_all _ _ _ hB]
  · rw [if_neg (by simp [hB]), dropWhile_append_ne_nil _ _ _ hB, List.reverse_append,
      List.reverse_reverse]

theorem dropWhileEnd_replicate (p : Char → Bool) (z : ℕ) (c : Char) (hc : p c = true) :
    dropWhileEnd p (List.replicate z c) = [] := by
  unfold dropWhileEnd
  rw [List.reverse_replicate,
    dropWhile_eq_nil_of_all _ _ fun a ha => by rw [List.eq_of_mem_replicate ha]; exact hc]
  rfl

theorem dropWhileEnd_eq_self {p : Char → Bool} {l : List Char} {c : Char} {t : List Char}
    (hl : l.reverse = c :: t) (hc : p c = false) : dropWhileEnd p l = l := by
  unfold dropWhileEnd
  rw [hl, List.dropWhile_cons, hc]
  simp only [Bool.false_eq_true, if_false]
  rw [← hl, List.reverse_reverse]

theorem dropWhileEnd_singleton (p : Char → Bool) (c : Char) :
    dropWhileEnd p [c] = if p c then [] else [c] := by
  unfold dropWhileEnd
  rw [List.reverse_singleton, List.dropWhile_cons]
  by_cases h : p c = true
  · simp [h]
  · rw [Bool.not_eq_true] at h
    simp [h]

theorem fracChars_zero (p : ℕ) : fracChars 0 p = List.replicate p '0' := by
  unfold fracChars
  rw [digs_zero]
  simp

theorem fracChars_reverse (r q : ℕ) (hr : r ≠ 0) :
    (fracChars r q).reverse = Nat.digitChar (r % 10) ::
      ((Nat.digits 10 (r / 10)).map Nat.digitChar ++
        List.replicate (q - (digs r).length) '0') := by
  unfold fracChars
  rw [List.reverse_append, List.reverse_replicate, List.map_reverse,
    List.reverse_reverse, digs_cons r hr, List.map_cons, List.cons_append]

theorem digitChar_beq_zero_false {d : ℕ} (hd : d < 10) (h : d ≠ 0) :
    (Nat.digitChar d == '0') = false :=
  char_beq_false (by rw [digitChar_toNat hd, show ('0' : Char).toNat = 48 by decide]; omega)

theorem natChars_rev_cons (a : ℕ) :
    ∃ c G, (natChars a).reverse = c :: G ∧ 48 ≤ c.toNat ∧ c.toNat ≤ 57 := by
  have hne : (natChars a).reverse ≠ [] := by
    simpa using natChars_ne_nil a
  rcases List.exists_cons_of_ne_nil hne with ⟨c, G, hcG⟩
  refine ⟨c, G, hcG, natChars_digit a c ?_⟩
  rw [← List.mem_reverse, hcG]
  simp

theorem dropWhileEnd_fracChars (p : Char → Bool) (r q : ℕ) (hr : r ≠ 0)
    (hp : p (Nat.digitChar (r % 10)) = false) :
    dropWhileEnd p (fracChars r q) = fracChars r q :=
  dropWhileEnd_eq_self (fracChars_reverse r q hr) hp

theorem dropWhileEnd_natChars (p : Char → Bool) (a : ℕ)
    (hp : ∀ c, 48 ≤ c.toNat → c.toNat ≤ 57 → p c = false) :
    dropWhileEnd p (natChars a) = natChars a := by
  rcases natChars_rev_cons a with ⟨c, G, hcG, hc1, hc2⟩
  exact dropWhileEnd_eq_self hcG (hp c hc1 hc2)

/-- What the two `rstrip` calls leave of a fixed-point rendering whose
fraction splits into a part ending in a nonzero digit and `z` trailing
zeros: the trailing zeros go, the point and the rest stay. -/
theorem pyStrip_core (neg : Bool) (a r q z : ℕ) (hr : r ≠ 0) (hr10 : r % 10 ≠ 0) :
    pyStrip ((if neg then ['-'] else []) ++
        (natChars a ++ '.' :: (fracChars r q ++ List.replicate z '0'))) =
      (if neg then ['-'] else []) ++ (natChars a ++ '.' :: fracChars r q) := by
  have hmod : r % 10 < 10 := Nat.mod_lt r (by norm_num)
  have hz0 : ((Nat.digitChar (r % 10)) == '0') = false :=
    digitChar_beq_zero_false hmod hr10
  have hzdot : ((Nat.digitChar (r % 10)) == '.') = false := by
    refine digit_beq_false ⟨?_, ?_⟩ '.' (by decide) <;> rw [digitChar_toNat hmod] <;> omega
  have hF0 : dropWhileEnd (fun c => c == '0') (fracChars r q) = fracChars r q :=
    dropWhileEnd_fracChars _ r q hr hz0
  have hFd : dropWhileEnd (fun c => c == '.') (fracChars r q) = fracChars r q :=
    dropWhileEnd_fracChars _ r q hr hzdot
  have hFne : fracChars r q ≠ [] := by
    intro hh
    have h2 := fracChars_reverse r q hr
    rw [hh] at h2
    simp at h2
  have hcont : ((if neg then ['-'] else []) ++
      (natChars a ++ '.' :: (fracChars r q ++ List.replicate z '0'))).contains '.' = true :=
    contains_eq_true (by simp)
  have e1 : dropWhileEnd (fun c => c == '0') (List.replicate z '0') = [] :=
    dropWhileEnd_replicate _ z '0' (by decide)
  have e2 : dropWhileEnd (fun c => c == '0')
      (('.' :: fracChars r q) ++ List.replicate z '0') = '.' :: fracChars r q := by
    rw [dropWhileEnd_append, if_pos e1,
      show ('.' :: fracChars r q) = ['.'] ++ fracChars r q from rfl,
      dropWhileEnd_append, if_neg (by rw [hF0]; exact hFne), hF0]
  have e3 : dropWhileEnd (fun c => c == '0')
      (natChars a ++ (('.' :: fracChars r q) ++ List.replicate z '0'))
      = natChars a ++ ('.' :: fracChars r q) := by
    rw [dropWhileEnd_append, if_neg (by rw [e2]; simp), e2]
  have e4 : dropWhileEnd (fun c => c == '0') ((if neg then ['-'] else []) ++
      (natChars a ++ (('.' :: fracChars r q) ++ List.replicate z '0')))
      = (if neg then ['-'] else []) ++ (natChars a ++ ('.' :: fracChars r q)) := by
    rw [dropWhileEnd_append, if_neg (by rw [e3]; simp [natChars_ne_nil a]), e3]
  have f2 : dropWhileEnd (fun c => c == '.') ('.' :: fracChars r q) = '.' :: fracChars r q := by
    rw [show ('.' :: fracChars r q) = ['.'] ++ fracChars r q from rfl,
      dropWhileEnd_append, if_neg (by rw [hFd]; exact hFne), hFd]
  have f3 : dropWhileEnd (fun c => c == '.') (natChars a ++ ('.' :: fracChars r q))
      = natChars a ++ ('.' :: fracChars r q) := by
    rw [dropWhileEnd_append, if_neg (by rw [f2]; simp), f2]
  have f4 : dropWhileEnd (fun c => c == '.') ((if neg then ['-'] else []) ++
      (natChars a ++ ('.' :: fracChars r q)))
      = (if neg then ['-'] else []) ++ (natChars a ++ ('.' :: fracChars r q)) := by
    rw [dropWhileEnd_append, if_neg (by rw [f3]; simp [natChars_ne_nil a]), f3]
  unfold pyStrip
  rw [if_pos hcont,
    show ('.' :: (fracChars r q ++ List.replicate z '0')) =
      ('.' :: fracChars r q) ++ List.replicate z '0' from rfl, e4, f4]

/-- With an all-zero fraction the `rstrip` calls remove the whole
fraction and the point. -/
theorem pyStrip_core_zero (neg : Bool) (a z : ℕ) :
    pyStrip ((if neg then ['-'] else []) ++ (natChars a ++ '.' :: List.replicate z '0')) =
      (if neg then ['-'] else []) ++ natChars a := by
  have hcont : ((if neg then ['-'] else []) ++
      (natChars a ++ '.' :: List.replicate z '0')).contains '.' = true :=
    contains_eq_true (by simp)
  have e1 : dropWhileEnd (fun c => c == '0') (List.replicate z '0') = [] :=
    dropWhileEnd_replicate _ z '0' (by decide)
  have e2 : dropWhileEnd (fun c => c == '0') (('.' : Char) :: List.replicate z '0')
      = ['.'] := by
    rw [show (('.' : Char) :: List.replicate z '0') = ['.'] ++ List.replicate z '0' from rfl,
      dropWhileEnd_append, if_pos e1, dropWhileEnd_singleton]
    decide
  have e3 : dropWhileEnd (fun c => c == '0')
      (natChars a ++ ('.' :: List.replicate z '0')) = natChars a ++ ['.'] := by
    rw [dropWhileEnd_append, if_neg (by rw [e2]; simp), e2]
  have e4 : dropWhileEnd (fun c => c == '0') ((if neg then ['-'] else []) ++
      (natChars a ++ ('.' :: List.replicate z '0')))
      = (if neg then ['-'] else []) ++ (natChars a ++ ['.']) := by
    rw [dropWhileEnd_append, if_neg (by rw [e3]; simp [natChars_ne_nil a]), e3]
  have f1 : dropWhileEnd (fun c => c == '.') (['.'] : List Char) = [] := by
    rw [dropWhileEnd_singleton]
    decide
  have fN : dropWhileEnd (fun c => c == '.') (natChars a) = natChars a :=
    dropWhileEnd_natChars _ a fun c h1 h2 => digit_beq_false ⟨h1, h2⟩ '.' (by decide)
  have f2 : dropWhileEnd (fun c => c == '.') (natChars a ++ ['.']) = natChars a := by
    rw [dropWhileEnd_append, if_pos f1, fN]
  have f3 : dropWhileEnd (fun c => c == '.') ((if neg then ['-'] else []) ++
      (natChars a ++ ['.'])) = (if neg then ['-'] else []) ++ natChars a := by
    rw [dropWhileEnd_append, if_neg (by rw [f2]; exact natChars_ne_nil a), f2]
  unfold pyStrip
  rw [if_pos hcont, e4, f3]

theorem fracChars_decomp (r p z : ℕ) (hz : 10 ^ z ∣ r) (hr : r ≠ 0) :
    fracChars r p = fracChars (r / 10 ^ z) (p - z) ++ List.replicate z '0' := by
  have hr2 : r / 10 ^ z * 10 ^ z = r := Nat.div_mul_cancel hz
  have hr2ne : r / 10 ^ z ≠ 0 := by
    intro h0
    rw [h0, zero_mul] at hr2
    exact hr hr2.symm
  unfold fracChars
  rw [← hr2, digs_mul_pow _ hr2ne z, hr2]
  rw [List.reverse_append, List.reverse_replicate, List.map_append, List.map_replicate]
  rw [show Nat.digitChar 0 = '0' from rfl]
  rw [List.append_assoc]
  congr 2
  simp only [List.length_append, List.length_replicate]
  omega

theorem renderFixed_zero_chars (neg : Bool) (n : ℕ) :
    ∀ c ∈ renderFixed neg n 0, c.toNat = 45 ∨ (48 ≤ c.toNat ∧ c.toNat ≤ 57) := by
  unfold renderFixed
  intro c hc
  simp only [if_pos rfl] at hc
  rcases List.mem_append.mp hc with h | h
  · cases neg
    · simp at h
    · simp at h
      subst h
      left
      rfl
  · exact Or.inr (natChars_digit n c h)

theorem pyStrip_renderFixed0 (neg : Bool) (n : ℕ) :
    pyStrip (renderFixed neg n 0) = renderFixed neg n 0 := by
  have h : (renderFixed neg n 0).contains '.' = false :=
    contains_eq_false fun c hc => by
      rcases renderFixed_zero_chars neg n c hc with h | h <;>
        (rw [show ('.' : Char).toNat = 46 by decide]; omega)
  unfold pyStrip
  rw [h]
  simp

/-- The `rstrip` calls turn a fixed-point rendering into another
fixed-point rendering of the same value, on which they act as the
identity. -/
theorem pyStrip_renderFixed (neg : Bool) (n p : ℕ) :
    ∃ n2 p2, pyStrip (renderFixed neg n p) = renderFixed neg n2 p2 ∧
      (n2 : ℚ) / 10 ^ p2 = (n : ℚ) / 10 ^ p ∧
      pyStrip (renderFixed neg n2 p2) = renderFixed neg n2 p2 := by
  rcases eq_or_ne p 0 with rfl | hp0
  · exact ⟨n, 0, pyStrip_renderFixed0 neg n, rfl, pyStrip_renderFixed0 neg n⟩
  have hrender : renderFixed neg n p = (if neg then ['-'] else []) ++
      (natChars (n / 10 ^ p) ++ '.' :: fracChars (n % 10 ^ p) p) := by
    unfold renderFixed
    rw [if_neg hp0]
  rcases eq_or_ne (n % 10 ^ p) 0 with hr0 | hrne
  · refine ⟨n / 10 ^ p, 0, ?_, ?_, pyStrip_renderFixed0 neg (n / 10 ^ p)⟩
    · rw [hrender, hr0, fracChars_zero, pyStrip_core_zero]
      unfold renderFixed
      rw [if_pos rfl]
    · have hn : n / 10 ^ p * 10 ^ p = n := Nat.div_mul_cancel (Nat.dvd_of_mod_eq_zero hr0)
      rw [pow_zero, div_one, eq_div_iff (by positivity : ((10 : ℚ) ^ p) ≠ 0)]
      exact_mod_cast congrArg (Nat.cast (R := ℚ)) hn
  · obtain ⟨hdvd, hmod, hne⟩ := tz_spec (n % 10 ^ p) hrne
    have hppos : 0 < (10 : ℕ) ^ p := by positivity
    have hrlt : n % 10 ^ p < 10 ^ p := Nat.mod_lt n hppos
    have hzlt : tz (n % 10 ^ p) < p := by
      have h1 : 10 ^ tz (n % 10 ^ p) ≤ n % 10 ^ p :=
        Nat.le_of_dvd (Nat.pos_of_ne_zero hrne) hdvd
      exact (Nat.pow_lt_pow_iff_right (by norm_num : 1 < 10)).mp (lt_of_le_of_lt h1 hrlt)
    have hrprod : n % 10 ^ p / 10 ^ tz (n % 10 ^ p) * 10 ^ tz (n % 10 ^ p) = n % 10 ^ p :=
      Nat.div_mul_cancel hdvd
    have hr2lt : n % 10 ^ p / 10 ^ tz (n % 10 ^ p) < 10 ^ (p - tz (n % 10 ^ p)) := by
      by_contra hcon
      push_neg at hcon
      have h2 : 10 ^ (p - tz (n % 10 ^ p)) * 10 ^ tz (n % 10 ^ p) ≤
          n % 10 ^ p / 10 ^ tz (n % 10 ^ p) * 10 ^ tz (n % 10 ^ p) :=
        Nat.mul_le_mul_right _ hcon
      rw [hrprod, ← pow_add] at h2
      have h3 : p - tz (n % 10 ^ p) + tz (n % 10 ^ p) = p := by omega
      rw [h3] at h2
      omega
    have hdecomp : fracChars (n % 10 ^ p) p =
        fracChars (n % 10 ^ p / 10 ^ tz (n % 10 ^ p)) (p - tz (n % 10 ^ p)) ++
          List.replicate (tz (n % 10 ^ p)) '0' :=
      fracChars_decomp _ p _ hdvd hrne
    have hp2 : p - tz (n % 10 ^ p) ≠ 0 := by omega
    have hdiv : (n / 10 ^ p * 10 ^ (p - tz (n % 10 ^ p)) +
        n % 10 ^ p / 10 ^ tz (n % 10 ^ p)) / 10 ^ (p - tz (n % 10 ^ p)) = n / 10 ^ p := by
      rw [mul_comm (n / 10 ^ p), Nat.mul_add_div (by positivity), Nat.div_eq_of_lt hr2lt]
      omega
    have hmod2 : (n / 10 ^ p * 10 ^ (p - tz (n % 10 ^ p)) +
        n % 10 ^ p / 10 ^ tz (n % 10 ^ p)) % 10 ^ (p - tz (n % 10 ^ p)) =
        n % 10 ^ p / 10 ^ tz (n % 10 ^ p) := by
      rw [mul_comm (n / 10 ^ p), Nat.mul_add_mod, Nat.mod_eq_of_lt hr2lt]
    refine ⟨n / 10 ^ p * 10 ^ (p - tz (n % 10 ^ p)) + n % 10 ^ p / 10 ^ tz (n % 10 ^ p),
      p - tz (n % 10 ^ p), ?_, ?_, ?_⟩
    · rw [hrender, hdecomp, pyStrip_core neg _ _ _ _ hne hmod]
      unfold renderFixed
      rw [if_neg hp2, hdiv, hmod2]
    · have hn : n / 10 ^ p * 10 ^ p + n % 10 ^ p = n := by
        rw [mul_comm]
        exact Nat.div_add_mod n (10 ^ p)
      have hps : p = (p - tz (n % 10 ^ p)) + tz (n % 10 ^ p) := by omega
      rw [div_eq_div_iff (by positivity) (by positivity)]
      have h2 : n = n / 10 ^ p * (10 ^ (p - tz (n % 10 ^ p)) * 10 ^ tz (n % 10 ^ p)) +
          n % 10 ^ p / 10 ^ tz (n % 10 ^ p) * 10 ^ tz (n % 10 ^ p) := by
        rw [← pow_add, ← hps, hrprod, hn]
      have h2q : (n : ℚ) = (n / 10 ^ p : ℕ) * ((10 : ℚ) ^ (p - tz (n % 10 ^ p)) *
          10 ^ tz (n % 10 ^ p)) + (n % 10 ^ p / 10 ^ tz (n % 10 ^ p) : ℕ) *
          10 ^ tz (n % 10 ^ p) := by
        exact_mod_cast congrArg (Nat.cast (R := ℚ)) h2
      have hpq : (10 : ℚ) ^ p = 10 ^ (p - tz (n % 10 ^ p)) * 10 ^ tz (n % 10 ^ p) := by
        rw [← pow_add, Nat.sub_add_cancel hzlt.le]
      push_cast
      rw [h2q, hpq]
      ring
    · have hrender2 : renderFixed neg (n / 10 ^ p * 10 ^ (p - tz (n % 10 ^ p)) +
          n % 10 ^ p / 10 ^ tz (n % 10 ^ p)) (p - tz (n % 10 ^ p)) =
          (if neg then ['-'] else []) ++ (natChars (n / 10 ^ p) ++
            '.' :: fracChars (n % 10 ^ p / 10 ^ tz (n % 10 ^ p)) (p - tz (n % 10 ^ p))) := by
        unfold renderFixed
        rw [if_neg hp2, hdiv, hmod2]
      rw [hrender2]
      conv_lhs => rw [show fracChars (n % 10 ^ p / 10 ^ tz (n % 10 ^ p))
          (p - tz (n % 10 ^ p)) = fracChars (n % 10 ^ p / 10 ^ tz (n % 10 ^ p))
          (p - tz (n % 10 ^ p)) ++ List.replicate 0 '0' by simp]
      exact pyStrip_core neg _ _ _ 0 hne hmod

theorem isPyWs_eq_false {c : Char} (h : 33 ≤ c.toNat) : isPyWs c = false := by
  unfold isPyWs
  rw [char_beq_false (fun hh => by rw [show (' ' : Char).toNat = 32 by decide] at hh; omega),
    char_beq_false (fun hh => by rw [show ('\t' : Char).toNat = 9 by decide] at hh; omega),
    char_beq_false (fun hh => by rw [show ('\n' : Char).toNat = 10 by decide] at hh; omega),
    char_beq_false (fun hh => by rw [show ('\r' : Char).toNat = 13 by decide] at hh; omega),
    char_beq_false (fun hh => by rw [show ('\x0b' : Char).toNat = 11 by decide] at hh; omega),
    char_beq_false (fun hh => by rw [show ('\x0c' : Char).toNat = 12 by decide] at hh; omega)]
  rfl

theorem trimL_eq_self {l : List Char} (h : ∀ c ∈ l, isPyWs c = false) : trimL l = l := by
  unfold trimL
  rw [dropWhile_eq_self_of_all _ _ h, dropWhile_eq_self_of_all, List.reverse_reverse]
  intro c hc
  exact h c (List.mem_reverse.mp hc)

theorem renderFixed_no_ws (neg : Bool) (n p : ℕ) :
    ∀ c ∈ renderFixed neg n p, isPyWs c = false := fun c hc =>
  isPyWs_eq_false (by rcases renderFixed_chars neg n p c hc with h | h | h <;> omega)

theorem pyFloat_mk (l : List Char) : pyFloat (String.mk l) = pyFloatCore (trimL l) := rfl

theorem signApply_decide_abs (x : ℚ) : signApply (decide (x < 0)) |x| = x := by
  by_cases h : x < 0
  · simp [signApply, h, abs_of_neg h]
  · simp [signApply, h, abs_of_nonneg (not_lt.mp h)]

theorem decide_signApply_neg {q : ℚ} (neg : Bool) (hq : 0 < q) :
    decide (signApply neg q < 0) = neg := by
  cases neg
  · simp [signApply, not_lt.mpr hq.le]
  · simp [signApply, neg_lt_zero.mpr hq]

theorem abs_signApply {q : ℚ} (neg : Bool) (hq : 0 ≤ q) : |signApply neg q| = q := by
  cases neg <;> simp [signApply, abs_of_nonneg hq]

theorem signApply_ne_zero {q : ℚ} (neg : Bool) (hq : q ≠ 0) : signApply neg q ≠ 0 := by
  cases neg <;> simp [signApply, hq]

theorem pyFloat_strip_renderFixed (neg : Bool) (n p : ℕ) :
    pyFloat (String.mk (pyStrip (renderFixed neg n p))) =
      some (.finite (signApply neg ((n : ℚ) / 10 ^ p))) := by
  obtain ⟨n2, p2, hs1, hs2, _⟩ := pyStrip_renderFixed neg n p
  rw [pyFloat_mk, hs1, trimL_eq_self (renderFixed_no_ws neg n2 p2),
    pyFloatCore_renderFixed, hs2]

/-! ## Supporting lemmas: reformatting a parsed fixed-band output -/

theorem roundtrip_band2 (x : ℚ) (h1 : 1 / 100 ≤ |x|) (h2 : |x| < 10) :
    ∃ y : ℚ, pyFloat (format_number (some x)) = some (.finite y) ∧
      format_number (some y) = format_number (some x) := by
  set nb := decide (x < 0) with hnb
  have hm1 : (1 : ℤ) ≤ rhe (|x| * 10 ^ 2) := le_rhe (by push_cast; nlinarith)
  have hm2 : rhe (|x| * 10 ^ 2) ≤ 1000 := rhe_le (by push_cast; nlinarith)
  set m := (rhe (|x| * 10 ^ 2)).toNat with hmdef
  have hm1n : 1 ≤ m := by omega
  have hm2n : m ≤ 1000 := by omega
  have hfmt : format_number (some x) = String.mk (pyStrip (renderFixed nb m 2)) := by
    rw [format_number_band2 h1 h2]
    rfl
  have hq0 : (0 : ℚ) < (m : ℚ) / 10 ^ 2 :=
    div_pos (by exact_mod_cast hm1n) (by norm_num)
  have hyneg : decide (signApply nb ((m : ℚ) / 10 ^ 2) < 0) = nb :=
    decide_signApply_neg _ hq0
  have hyabs : |signApply nb ((m : ℚ) / 10 ^ 2)| = (m : ℚ) / 10 ^ 2 :=
    abs_signApply _ hq0.le
  refine ⟨signApply nb ((m : ℚ) / 10 ^ 2), by rw [hfmt, pyFloat_strip_renderFixed], ?_⟩
  rcases eq_or_lt_of_le hm2n with hmc | hmlt
  · have hy10 : (m : ℚ) / 10 ^ 2 = 10 := by rw [hmc]; norm_num
    rw [hfmt, format_number_band1 (by rw [hyabs, hy10]) (by rw [hyabs, hy10]; norm_num)]
    unfold pyFixed
    rw [hyneg, hyabs, hy10, show ((10 : ℚ) * 10 ^ 1) = ((100 : ℤ) : ℚ) by norm_num,
      rhe_intCast, show ((100 : ℤ)).toNat = 100 from rfl, hmc]
    rcases Bool.dichotomy nb with hb | hb <;> rw [hb] <;> decide
  · have hylt : (m : ℚ) / 10 ^ 2 < 10 := by
      rw [div_lt_iff (by norm_num : (0 : ℚ) < 10 ^ 2)]
      exact_mod_cast (by omega : m < 1000)
    have hyge : 1 / 100 ≤ (m : ℚ) / 10 ^ 2 := by
      rw [show (1 : ℚ) / 100 = 1 / 10 ^ 2 by norm_num,
        div_le_div_iff_of_pos_right (by norm_num : (0 : ℚ) < 10 ^ 2)]
      exact_mod_cast hm1n
    rw [hfmt, format_number_band2 (by rw [hyabs]; exact hyge) (by rw [hyabs]; exact hylt)]
    unfold pyFixed
    rw [hyneg, hyabs, show ((m : ℚ) / 10 ^ 2 * 10 ^ 2) = (m : ℚ) by field_simp,
      rhe_natCast, Int.toNat_natCast]

theorem roundtrip_band1 (x : ℚ) (h1 : 10 ≤ |x|) (h2 : |x| < 100) :
    ∃ y : ℚ, pyFloat (format_number (some x)) = some (.finite y) ∧
      format_number (some y) = format_number (some x) := by
  set nb := decide (x < 0) with hnb
  have hm1 : (100 : ℤ) ≤ rhe (|x| * 10 ^ 1) := le_rhe (by push_cast; nlinarith)
  have hm2 : rhe (|x| * 10 ^ 1) ≤ 1000 := rhe_le (by push_cast; nlinarith)
  set m := (rhe (|x| * 10 ^ 1)).toNat with hmdef
  have hm1n : 100 ≤ m := by omega
  have hm2n : m ≤ 1000 := by omega
  have hfmt : format_number (some x) = String.mk (pyStrip (renderFixed nb m 1)) := by
    rw [format_number_band1 h1 h2]
    rfl
  have hq0 : (0 : ℚ) < (m : ℚ) / 10 ^ 1 :=
    div_pos (by exact_mod_cast (by omega : 1 ≤ m)) (by norm_num)
  have hyneg : decide (signApply nb ((m : ℚ) / 10 ^ 1) < 0) = nb :=
    decide_signApply_neg _ hq0
  have hyabs : |signApply nb ((m : ℚ) / 10 ^ 1)| = (m : ℚ) / 10 ^ 1 :=
    abs_signApply _ hq0.le
  refine ⟨signApply nb ((m : ℚ) / 10 ^ 1), by rw [hfmt, pyFloat_strip_renderFixed], ?_⟩
  rcases eq_or_lt_of_le hm2n with hmc | hmlt
  · have hy100 : (m : ℚ) / 10 ^ 1 = 100 := by rw [hmc]; norm_num
    rw [hfmt, format_number_band0 (by rw [hyabs, hy100])]
    unfold pyFixed
    rw [hyneg, hyabs, hy100, show ((100 : ℚ) * 10 ^ 0) = ((100 : ℤ) : ℚ) by norm_num,
      rhe_intCast, show ((100 : ℤ)).toNat = 100 from rfl, hmc]
    rcases Bool.dichotomy nb with hb | hb <;> rw [hb] <;> decide
  · have hylt : (m : ℚ) / 10 ^ 1 < 100 := by
      rw [div_lt_iff (by norm_num : (0 : ℚ) < 10 ^ 1)]
      exact_mod_cast (by omega : m < 1000)
    have hyge : 10 ≤ (m : ℚ) / 10 ^ 1 := by
      rw [le_div_iff (by norm_num : (0 : ℚ) < 10 ^ 1)]
      exact_mod_cast hm1n
    rw [hfmt, format_number_band1 (by rw [hyabs]; exact hyge) (by rw [hyabs]; exact hylt)]
    unfold pyFixed
    rw [hyneg, hyabs, show ((m : ℚ) / 10 ^ 1 * 10 ^ 1) = (m : ℚ) by field_simp,
      rhe_natCast, Int.toNat_natCast]

theorem roundtrip_band0 (x : ℚ) (h1 : 100 ≤ |x|) :
    ∃ y : ℚ, pyFloat (format_number (some x)) = some (.finite y) ∧
      format_number (some y) = format_number (some x) := by
  set nb := decide (x < 0) with hnb
  have hm1 : (100 : ℤ) ≤ rhe (|x| * 10 ^ 0) := le_rhe (by push_cast; nlinarith)
  set m := (rhe (|x| * 10 ^ 0)).toNat with hmdef
  have hm1n : 100 ≤ m := by omega
  have hfmt : format_number (some x) = String.mk (pyStrip (renderFixed nb m 0)) := by
    rw [format_number_band0 h1]
    rfl
  have hq0 : (0 : ℚ) < (m : ℚ) / 10 ^ 0 :=
    div_pos (by exact_mod_cast (by omega : 1 ≤ m)) (by norm_num)
  have hyneg : decide (signApply nb ((m : ℚ) / 10 ^ 0) < 0) = nb :=
    decide_signApply_neg _ hq0
  have hyabs : |signApply nb ((m : ℚ) / 10 ^ 0)| = (m : ℚ) / 10 ^ 0 :=
    abs_signApply _ hq0.le
  refine ⟨signApply nb ((m : ℚ) / 10 ^ 0), by rw [hfmt, pyFloat_strip_renderFixed], ?_⟩
  have hyge : 100 ≤ (m : ℚ) / 10 ^ 0 := by
    rw [pow_zero, div_one]
    exact_mod_cast hm1n
  rw [hfmt, format_number_band0 (by rw [hyabs]; exact hyge)]
  unfold pyFixed
  rw [hyneg, hyabs, show ((m : ℚ) / 10 ^ 0 * 10 ^ 0) = (m : ℚ) by norm_num,
    rhe_natCast, Int.toNat_natCast]

/-! ## Supporting lemmas: the decimal exponent -/

theorem expSearch_spec : ∀ fuel num den, 1 ≤ num → den ≤ num * 10 ^ fuel →
    den ≤ num * 10 ^ expSearch fuel num den ∧
    ∀ j < expSearch fuel num den, num * 10 ^ j < den := by
  intro fuel
  induction fuel with
  | zero =>
    intro num den h1 h2
    rw [pow_zero, mul_one] at h2
    exact ⟨by simpa [expSearch] using h2, by simp [expSearch]⟩
  | succ fuel ih =>
    intro num den h1 h2
    rw [show expSearch (fuel + 1) num den =
      if den ≤ num then 0 else expSearch fuel (num * 10) den + 1 from rfl]
    split_ifs with hc
    · exact ⟨by simpa using hc, by omega⟩
    · have h2a : den ≤ num * 10 * 10 ^ fuel := by
        calc den ≤ num * 10 ^ (fuel + 1) := h2
          _ = num * 10 * 10 ^ fuel := by ring
      obtain ⟨ha, hb⟩ := ih (num * 10) den (by omega) h2a
      refine ⟨?_, ?_⟩
      · calc den ≤ num * 10 * 10 ^ expSearch fuel (num * 10) den := ha
          _ = num * 10 ^ (expSearch fuel (num * 10) den + 1) := by ring
      · intro j hj
        match j with
        | 0 =>
          rw [pow_zero, mul_one]
          omega
        | j + 1 =>
          have hbj := hb j (by omega)
          calc num * 10 ^ (j + 1) = num * 10 * 10 ^ j := by ring
            _ < den := hbj

theorem num_pos_of_ne_zero {x : ℚ} (hx : x ≠ 0) : 1 ≤ x.num.natAbs := by
  have := Rat.num_ne_zero.mpr hx
  omega

theorem abs_eq_natAbs_div_den (x : ℚ) :
    |x| = (x.num.natAbs : ℚ) / (x.den : ℚ) := by
  conv_lhs => rw [← Rat.num_div_den x]
  rw [abs_div, abs_of_pos (show (0:ℚ) < (x.den : ℚ) by exact_mod_cast x.pos)]
  congr 1
  push_cast [Int.cast_natAbs]
  ring

/-- The unique characterisation of `decExp`. -/
theorem decExp_eq {x : ℚ} (hx : x ≠ 0) {e : ℤ}
    (hlo : (10 : ℚ) ^ e ≤ |x|) (hhi : |x| < 10 ^ (e + 1)) : decExp x = e := by
  have hN : 1 ≤ x.num.natAbs := num_pos_of_ne_zero hx
  have hD : 1 ≤ x.den := x.pos
  have hDq : (0 : ℚ) < (x.den : ℚ) := by exact_mod_cast x.pos
  have habs := abs_eq_natAbs_div_den x
  unfold decExp
  split_ifs with hcase
  · -- |x| ≥ 1, e ≥ 0
    have hge1 : (1 : ℚ) ≤ |x| := by
      rw [habs, le_div_iff₀ hDq]
      norm_num
      exact_mod_cast hcase
    have he0 : 0 ≤ e := by
      by_contra hneg
      push_neg at hneg
      have : e + 1 ≤ 0 := by omega
      have hle1 : (10 : ℚ) ^ (e + 1) ≤ 10 ^ (0 : ℤ) :=
        zpow_le_zpow_right₀ (by norm_num) this
      rw [zpow_zero] at hle1
      linarith
    obtain ⟨k, rfl⟩ : ∃ k : ℕ, e = (k : ℤ) := ⟨e.toNat, (Int.toNat_of_nonneg he0).symm⟩
    have hzlo : ((10 : ℚ) ^ k) ≤ |x| := by
      rw [← zpow_natCast (10 : ℚ) k]
      exact hlo
    have hzhi : |x| < (10 : ℚ) ^ (k + 1) := by
      rw [← zpow_natCast (10 : ℚ) (k + 1)]
      exact_mod_cast hhi
    -- convert to bounds on the natural quotient
    have hlo2 : 10 ^ k * x.den ≤ x.num.natAbs := by
      have := (le_div_iff₀ hDq).mp (habs ▸ hzlo)
      exact_mod_cast this
    have hhi2 : x.num.natAbs < 10 ^ (k + 1) * x.den := by
      have := (div_lt_iff₀ hDq).mp (habs ▸ hzhi)
      exact_mod_cast this
    have hqlo : 10 ^ k ≤ x.num.natAbs / x.den := Nat.le_div_iff_mul_le hD |>.mpr hlo2
    have hqhi : x.num.natAbs / x.den < 10 ^ (k + 1) :=
      Nat.div_lt_iff_lt_mul hD |>.mpr hhi2
    have hqne : x.num.natAbs / x.den ≠ 0 := by
      have : (0:ℕ) < 10 ^ k := by positivity
      omega
    rw [digs_eq, Nat.digits_len 10 _ (by norm_num) hqne,
      Nat.log_eq_of_pow_le_of_lt_pow hqlo hqhi]
    push_cast
    ring
  · -- |x| < 1, e < 0
    push_neg at hcase
    have hlt1 : |x| < 1 := by
      rw [habs, div_lt_one hDq]
      exact_mod_cast hcase
    have heneg : e < 0 := by
      by_contra hpos
      push_neg at hpos
      have : (10 : ℚ) ^ (0 : ℤ) ≤ 10 ^ e := zpow_le_zpow_right₀ (by norm_num) hpos
      rw [zpow_zero] at this
      linarith
    obtain ⟨k, hk⟩ : ∃ k : ℕ, e = -(k : ℤ) ∧ 1 ≤ k := by
      refine ⟨(-e).toNat, ?_, ?_⟩
      · omega
      · omega
    obtain ⟨hke, hk1⟩ := hk
    subst hke
    -- bounds as natural inequalities
    have hlo2 : x.den ≤ x.num.natAbs * 10 ^ k := by
      have h1 : (10 : ℚ) ^ (-(k : ℤ)) = 1 / 10 ^ k := by
        rw [zpow_neg, zpow_natCast, one_div]
      rw [habs, h1, div_le_div_iff₀ (by positivity) hDq, one_mul] at hlo
      exact_mod_cast hlo
    have hhi2 : x.num.natAbs * 10 ^ (k - 1) < x.den := by
      have h1 : (10 : ℚ) ^ (-(k : ℤ) + 1) = 1 / 10 ^ (k - 1) := by
        rw [show -(k : ℤ) + 1 = -((k - 1 : ℕ) : ℤ) by omega, zpow_neg, zpow_natCast,
          one_div]
      rw [habs, h1, div_lt_div_iff₀ hDq (by positivity), one_mul] at hhi
      exact_mod_cast hhi
    -- expSearch returns k
    have hfuel : x.den ≤ x.num.natAbs * 10 ^ (digs x.den).length := by
      have hdlt : x.den < 10 ^ (digs x.den).length := by
        rw [digs_eq]
        exact Nat.lt_base_pow_length_digits (by norm_num)
      calc x.den ≤ 10 ^ (digs x.den).length := hdlt.le
        _ ≤ x.num.natAbs * 10 ^ (digs x.den).length := Nat.le_mul_of_pos_left _ hN
    obtain ⟨ha, hb⟩ := expSearch_spec (digs x.den).length x.num.natAbs x.den hN hfuel
    have hsk : expSearch (digs x.den).length x.num.natAbs x.den = k := by
      by_contra hne
      rcases Nat.lt_or_ge (expSearch (digs x.den).length x.num.natAbs x.den) k with h | h
      · -- s < k: then s ≤ k - 1 so num * 10^s ≤ num * 10^(k-1) < den, contra ha
        have hsle : expSearch (digs x.den).length x.num.natAbs x.den ≤ k - 1 := by omega
        have : x.num.natAbs * 10 ^ expSearch (digs x.den).length x.num.natAbs x.den ≤
            x.num.natAbs * 10 ^ (k - 1) :=
          Nat.mul_le_mul_left _ (Nat.pow_le_pow_right (by norm_num) hsle)
        omega
      · -- s > k: minimality at j = k gives num * 10^k < den, contra hlo2
        have := hb k (by omega)
        omega
    rw [hsk]

theorem pyFloat_strip2_renderFixed (neg : Bool) (n p : ℕ) :
    pyFloat (String.mk (pyStrip (pyStrip (renderFixed neg n p)))) =
      some (.finite (signApply neg ((n : ℚ) / 10 ^ p))) := by
  obtain ⟨n2, p2, hs1, hs2, hs3⟩ := pyStrip_renderFixed neg n p
  rw [hs1, hs3, pyFloat_mk, trimL_eq_self (renderFixed_no_ws neg n2 p2),
    pyFloatCore_renderFixed, hs2]

/-- Reformatting a value of the form `±m/10^d` with a four-digit `m`
and `d = 3 - e` for `e ∈ {-4, -3}` reproduces the `%.4g` fixed-notation
rendering. -/
theorem bandg_nocarry (nb : Bool) (mt : ℕ) (e : ℤ) (d : ℕ)
    (he : e = -4 ∨ e = -3) (hd : d = ((3 : ℤ) - e).toNat)
    (hm1 : 1000 ≤ mt) (hm2 : mt < 10000) :
    format_number (some (signApply nb ((mt : ℚ) / 10 ^ d))) =
      String.mk (pyStrip (pyStrip (renderFixed nb mt d))) := by
  have hde : ((3 : ℤ) - e) = (d : ℤ) := by omega
  have hd67 : d = 6 ∨ d = 7 := by omega
  have hq0 : (0 : ℚ) < (mt : ℚ) / 10 ^ d :=
    div_pos (by exact_mod_cast (by omega : 1 ≤ mt)) (by positivity)
  have hyneg : decide (signApply nb ((mt : ℚ) / 10 ^ d) < 0) = nb :=
    decide_signApply_neg _ hq0
  have hyabs : |signApply nb ((mt : ℚ) / 10 ^ d)| = (mt : ℚ) / 10 ^ d :=
    abs_signApply _ hq0.le
  have hy0 : signApply nb ((mt : ℚ) / 10 ^ d) ≠ 0 := signApply_ne_zero nb hq0.ne'
  have hql : (10 : ℚ) ^ e ≤ (mt : ℚ) / 10 ^ d := by
    rw [le_div_iff₀ (by positivity : (0 : ℚ) < 10 ^ d)]
    have h1 : (10 : ℚ) ^ e * 10 ^ d = 10 ^ (3 : ℤ) := by
      rw [show (10 : ℚ) ^ d = (10 : ℚ) ^ (d : ℤ) by rw [zpow_natCast], ← zpow_add₀
        (by norm_num : (10 : ℚ) ≠ 0), ← hde]
      rw [show e + ((3 : ℤ) - e) = 3 by ring]
    rw [h1, show ((10 : ℚ) ^ (3 : ℤ)) = 1000 by norm_num]
    exact_mod_cast hm1
  have hqh : (mt : ℚ) / 10 ^ d < 10 ^ (e + 1) := by
    rw [div_lt_iff₀ (by positivity : (0 : ℚ) < 10 ^ d)]
    have h1 : (10 : ℚ) ^ (e + 1) * 10 ^ d = 10 ^ (4 : ℤ) := by
      rw [show (10 : ℚ) ^ d = (10 : ℚ) ^ (d : ℤ) by rw [zpow_natCast], ← zpow_add₀
        (by norm_num : (10 : ℚ) ≠ 0), ← hde]
      rw [show e + 1 + ((3 : ℤ) - e) = 4 by ring]
    rw [h1, show ((10 : ℚ) ^ (4 : ℤ)) = 10000 by norm_num]
    exact_mod_cast hm2
  have hyhi : |signApply nb ((mt : ℚ) / 10 ^ d)| < 1 / 100 := by
    rw [hyabs]
    calc (mt : ℚ) / 10 ^ d < 10 ^ (e + 1) := hqh
      _ ≤ 10 ^ (-2 : ℤ) := zpow_le_zpow_right₀ (by norm_num) (by omega)
      _ = 1 / 100 := by norm_num
  have hdec : decExp (signApply nb ((mt : ℚ) / 10 ^ d)) = e :=
    decExp_eq hy0 (by rw [hyabs]; exact hql) (by rw [hyabs]; exact hqh)
  have hrhe : rhe (|signApply nb ((mt : ℚ) / 10 ^ d)| *
      10 ^ ((3 : ℤ) - decExp (signApply nb ((mt : ℚ) / 10 ^ d)))) = (mt : ℤ) := by
    rw [hdec, hyabs, hde, show ((10 : ℚ) ^ ((d : ℕ) : ℤ)) = 10 ^ d by rw [zpow_natCast],
      div_mul_cancel₀ _ (by positivity : ((10 : ℚ) ^ d) ≠ 0), rhe_natCast]
  rw [format_number_bandg hy0 hyhi]
  unfold pyGen4
  rw [if_neg hy0, if_neg (by rw [hrhe, Int.toNat_natCast]; omega), hrhe,
    Int.toNat_natCast, hdec, hyneg]
  unfold pyGen4core
  rw [if_pos ⟨by omega, by omega⟩, show ((3 : ℤ) - e).toNat = d by omega]

theorem roundtrip_bandg (x : ℚ) (h1 : 1 / 10000 ≤ |x|) (h2 : |x| < 1 / 100) :
    ∃ y : ℚ, pyFloat (format_number (some x)) = some (.finite y) ∧
      format_number (some y) = format_number (some x) := by
  have hx : x ≠ 0 := by
    intro h0
    rw [h0, abs_zero] at h1
    norm_num at h1
  set nb := decide (x < 0) with hnb
  have hmain : ∀ e : ℤ, ∀ d : ℕ, e = -4 ∨ e = -3 → d = ((3 : ℤ) - e).toNat →
      decExp x = e →
      (10 : ℚ) ^ d * |x| < 10000 → 1000 ≤ (10 : ℚ) ^ d * |x| →
      ∃ y : ℚ, pyFloat (format_number (some x)) = some (.finite y) ∧
        format_number (some y) = format_number (some x) := by
    intro e d he hd hdec hsh hsl
    have hde : ((3 : ℤ) - e) = (d : ℤ) := by omega
    have hscale : |x| * 10 ^ ((3 : ℤ) - decExp x) = |x| * 10 ^ d := by
      rw [hdec, hde, zpow_natCast]
    have hm1 : (1000 : ℤ) ≤ rhe (|x| * 10 ^ ((3 : ℤ) - decExp x)) := by
      rw [hscale]
      exact le_rhe (by push_cast; linarith)
    have hm2 : rhe (|x| * 10 ^ ((3 : ℤ) - decExp x)) ≤ 10000 := by
      rw [hscale]
      exact rhe_le (by push_cast; linarith)
    have hfmt0 : format_number (some x) = String.mk (pyStrip (pyGen4 x)) :=
      format_number_bandg hx h2
    rcases eq_or_ne ((rhe (|x| * 10 ^ ((3 : ℤ) - decExp x))).toNat) 10000 with hc | hc
    · -- carry: mantissa 1000, exponent e + 1
      have hfmt : format_number (some x) =
          String.mk (pyStrip (pyGen4core nb 1000 (e + 1))) := by
        rw [hfmt0]
        unfold pyGen4
        rw [if_neg hx, if_pos hc, hdec]
      rcases he with rfl | rfl
      · -- e = -4: carry lands at exponent -3, still in the g band
        have hd7 : d = 7 := by omega
        have hcore : pyGen4core nb 1000 ((-4 : ℤ) + 1) =
            pyStrip (renderFixed nb 1000 6) := by
          unfold pyGen4core
          rw [if_pos ⟨by norm_num, by norm_num⟩,
            show ((3 : ℤ) - ((-4 : ℤ) + 1)).toNat = 6 by decide]
        rw [hfmt, hcore]
        refine ⟨signApply nb (((1000 : ℕ) : ℚ) / 10 ^ 6),
          pyFloat_strip2_renderFixed nb 1000 6, ?_⟩
        rw [bandg_nocarry nb 1000 (-3) 6 (Or.inr rfl) (by decide) le_rfl (by norm_num)]
      · -- e = -3: carry lands at exponent -2, reformatting in the 2-decimal band
        have hd6 : d = 6 := by omega
        have hcore : pyGen4core nb 1000 ((-3 : ℤ) + 1) =
            pyStrip (renderFixed nb 1000 5) := by
          unfold pyGen4core
          rw [if_pos ⟨by norm_num, by norm_num⟩,
            show ((3 : ℤ) - ((-3 : ℤ) + 1)).toNat = 5 by decide]
        rw [hfmt, hcore]
        refine ⟨signApply nb (((1000 : ℕ) : ℚ) / 10 ^ 5),
          pyFloat_strip2_renderFixed nb 1000 5, ?_⟩
        have hval : ((1000 : ℕ) : ℚ) / 10 ^ 5 = 1 / 100 := by norm_num
        have hq0 : (0 : ℚ) < ((1000 : ℕ) : ℚ) / 10 ^ 5 := by norm_num
        have hyneg : decide (signApply nb (((1000 : ℕ) : ℚ) / 10 ^ 5) < 0) = nb :=
          decide_signApply_neg _ hq0
        have hyabs : |signApply nb (((1000 : ℕ) : ℚ) / 10 ^ 5)| = ((1000 : ℕ) : ℚ) / 10 ^ 5 :=
          abs_signApply _ hq0.le
        rw [format_number_band2 (by rw [hyabs, hval]) (by rw [hyabs, hval]; norm_num)]
        unfold pyFixed
        rw [hyneg, hyabs, hval, show ((1 : ℚ) / 100 * 10 ^ 2) = ((1 : ℤ) : ℚ) by norm_num,
          rhe_intCast, show ((1 : ℤ)).toNat = 1 from rfl]
        rcases Bool.dichotomy nb with hb | hb <;> rw [hb] <;> decide
    · -- no carry
      have hmt1 : 1000 ≤ (rhe (|x| * 10 ^ ((3 : ℤ) - decExp x))).toNat := by omega
      have hmt2 : (rhe (|x| * 10 ^ ((3 : ℤ) - decExp x))).toNat < 10000 := by omega
      have hfmt : format_number (some x) = String.mk (pyStrip (pyStrip (renderFixed nb
          (rhe (|x| * 10 ^ ((3 : ℤ) - decExp x))).toNat d))) := by
        rw [hfmt0]
        unfold pyGen4
        rw [if_neg hx, if_neg hc, hdec]
        unfold pyGen4core
        rw [if_pos ⟨by omega, by omega⟩, show ((3 : ℤ) - e).toNat = d by omega]
      refine ⟨signApply nb (((rhe (|x| * 10 ^ ((3 : ℤ) - decExp x))).toNat : ℚ) / 10 ^ d),
        ?_, ?_⟩
      · rw [hfmt]
        exact pyFloat_strip2_renderFixed nb _ d
      · rw [bandg_nocarry nb _ e d he hd hmt1 hmt2, hfmt]
  rcases lt_or_le |x| (1 / 1000) with hcase | hcase
  · -- decimal exponent -4
    have hdec : decExp x = -4 :=
      decExp_eq hx (by rw [show ((10 : ℚ) ^ (-4 : ℤ)) = 1 / 10000 by norm_num]; exact h1)
        (by rw [show ((-4 : ℤ) + 1) = (-3 : ℤ) by norm_num,
              show ((10 : ℚ) ^ (-3 : ℤ)) = 1 / 1000 by norm_num]; exact hcase)
    exact hmain (-4) 7 (Or.inl rfl) (by decide) hdec
      (by rw [show ((10 : ℚ) ^ (7 : ℕ)) = 10000000 by norm_num]; linarith)
      (by rw [show ((10 : ℚ) ^ (7 : ℕ)) = 10000000 by norm_num]; linarith)
  · -- decimal exponent -3
    have hdec : decExp x = -3 :=
      decExp_eq hx (by rw [show ((10 : ℚ) ^ (-3 : ℤ)) = 1 / 1000 by norm_num]; exact hcase)
        (by rw [show ((-3 : ℤ) + 1) = (-2 : ℤ) by norm_num,
              show ((10 : ℚ) ^ (-2 : ℤ)) = 1 / 100 by norm_num]; exact h2)
    exact hmain (-3) 6 (Or.inr rfl) (by decide) hdec
      (by rw [show ((10 : ℚ) ^ (6 : ℕ)) = 1000000 by norm_num]; linarith)
      (by rw [show ((10 : ℚ) ^ (6 : ℕ)) = 1000000 by norm_num]; linarith)

/-! ## Claims about `calculate_stock_from_powder` and `calculate_dilution` -/

/-- C1: for positive molecular weight, concentration and volume, and any
unit tokens present in the conversion dicts (exactly `M`, `mM`, `µM`,
`nM` and `L`, `mL`, `µL`), `calculate_stock_from_powder` returns
`mass_g = (concentration scaled to molar) * (volume scaled to liters) *
molecular_weight`, `mass_mg = mass_g * 1000`, and passes `volume` and
`volume_unit` through unchanged. -/
theorem C1_stock_mass_formula (mw c v cf vf : ℚ) (cu vu : String)
    (hmw : 0 < mw) (hc : 0 < c) (hv : 0 < v)
    (hcu : concentration_conversion cu = some cf)
    (hvu : volume_conversion vu = some vf) :
    calculate_stock_from_powder mw c v cu vu =
      .ok ⟨c * cf * (v * vf) * mw * 1000, c * cf * (v * vf) * mw, v, vu⟩ := by
  simp [calculate_stock_from_powder, hcu, hvu]

/-- Witness for C1 at the spec's concrete scenario 1:
`calculate_stock_from_powder 466.35 10 1 "mM" "mL"` gives
`mass_g = 10·10⁻³ · 1·10⁻³ · 466.35` (so `mass_mg = 4.6635`). -/
theorem C1_stock_mass_formula_witness :
    calculate_stock_from_powder (46635 / 100) 10 1 "mM" "mL" =
      .ok ⟨10 * (1 / 1000) * (1 * (1 / 1000)) * (46635 / 100) * 1000,
           10 * (1 / 1000) * (1 * (1 / 1000)) * (46635 / 100), 1, "mL"⟩ :=
  C1_stock_mass_formula (46635 / 100) 10 1 (1 / 1000) (1 / 1000) "mM" "mL"
    (by norm_num) (by norm_num) (by norm_num) rfl rfl

/-- C2: for positive concentrations with `target ≤ stock` and any volume,
`calculate_dilution` returns the C1V1 = C2V2 solution:
`stock_volume = target·volume/stock`, `solvent_volume` the remainder,
`total_volume` the target volume and `dilution_factor = stock/target`. -/
theorem C2_dilution_formula (s t v : ℚ) (cu vu : String)
    (hs : 0 < s) (ht : 0 < t) (hts : t ≤ s) :
    calculate_dilution s t v cu vu =
      .ok (.result (t * v / s) (v - t * v / s) v vu (s / t)) := by
  simp [calculate_dilution, not_lt.mpr hts, hs.ne', ht.ne']

/-- Witness for C2 at the spec's concrete scenario 2:
`calculate_dilution 10 1 10 "mM" "mL"` gives stock volume 1, solvent
volume 9, total volume 10, dilution factor 10. -/
theorem C2_dilution_formula_witness :
    calculate_dilution 10 1 10 "mM" "mL" = .ok (.result 1 9 10 "mL" 10) := by
  have h := C2_dilution_formula 10 1 10 "mM" "mL"
    (by norm_num) (by norm_num) (by norm_num)
  norm_num at h
  exact h

/-- C3: whenever the target concentration strictly exceeds the stock
concentration, `calculate_dilution` returns the error dict (the
infeasibility marker with its message) and no numeric result. -/
theorem C3_dilution_infeasible (s t v : ℚ) (cu vu : String) (h : s < t) :
    calculate_dilution s t v cu vu =
      .ok (.infeasible "Target concentration cannot exceed stock concentration") := by
  simp [calculate_dilution, h]

/-- Witness for C3: target 2 against stock 1 is rejected as infeasible. -/
theorem C3_dilution_infeasible_witness :
    calculate_dilution 1 2 5 "mM" "mL" =
      .ok (.infeasible "Target concentration cannot exceed stock concentration") :=
  C3_dilution_infeasible 1 2 5 "mM" "mL" (by norm_num)

/-- C7: with target concentration equal to stock concentration (both
positive) `calculate_dilution` returns a valid numeric result, not an
error: the whole target volume as stock, zero solvent, factor 1. -/
theorem C7_no_dilution_edge (c v : ℚ) (cu vu : String)
    (hc : 0 < c) (hv : 0 < v) :
    calculate_dilution c c v cu vu = .ok (.result v 0 v vu 1) := by
  have h := C2_dilution_formula c c v cu vu hc hc le_rfl
  rw [mul_comm, mul_div_assoc, div_self hc.ne', mul_one, sub_self] at h
  exact h

/-- Witness for C7: equal concentrations 5 and 5 with volume 2. -/
theorem C7_no_dilution_edge_witness :
    calculate_dilution 5 5 2 "mM" "mL" = .ok (.result 2 0 2 "mL" 1) :=
  C7_no_dilution_edge 5 2 "mM" "mL" (by norm_num) (by norm_num)

/-- C10: positivity of both concentrations makes `calculate_dilution`
division-safe (it always returns a dict, never raises), but the
infeasibility guard alone does not: a zero target concentration passes
the guard (`0 > stock` is false) and reaches the unguarded division
`stock_concentration / target_concentration`, raising
`ZeroDivisionError`. -/
theorem C10_division_safety :
    (∀ (s t v : ℚ) (cu vu : String), 0 < s → 0 < t →
      ∃ r, calculate_dilution s t v cu vu = .ok r) ∧
    (∀ (s v : ℚ) (cu vu : String), 0 < s →
      calculate_dilution s 0 v cu vu = .error .zeroDivision) := by
  constructor
  · intro s t v cu vu hs ht
    rcases le_or_lt t s with hts | hst
    · exact ⟨_, C2_dilution_formula s t v cu vu hs ht hts⟩
    · exact ⟨_, C3_dilution_infeasible s t v cu vu hst⟩
  · intro s v cu vu hs
    simp [calculate_dilution, not_lt.mpr hs.le, hs.ne']

/-- Witness for C10: positive inputs `(10, 1)` produce a dict, while
`(10, 0)` slips past the guard and raises `ZeroDivisionError`. -/
theorem C10_division_safety_witness :
    (∃ r, calculate_dilution 10 1 10 "mM" "mL" = .ok r) ∧
    calculate_dilution 10 0 5 "mM" "mL" = .error .zeroDivision :=
  ⟨C10_division_safety.1 10 1 10 "mM" "mL" (by norm_num) (by norm_num),
   C10_division_safety.2 10 5 "mM" "mL" (by norm_num)⟩

/-- C6 counterexample: the claim says an unknown unit token yields an
explicit categorized `UnrecognizedUnit` failure, never a generic
exception; in fact the dict subscript at line 68 of `calculators.py`
raises a plain `KeyError` (modelled by `PyError.keyError`), and the
function's result type carries no categorized unit failure at all. -/
theorem C6_counterexample :
    calculate_stock_from_powder 100 10 1 "mg/mL" "mL" =
      .error (.keyError "mg/mL") := by
  rfl

/-- C6 (amended): for any concentration-unit token outside the dict's
key set, `calculate_stock_from_powder` raises a generic `KeyError`
naming that token; with a known concentration unit but an unknown
volume-unit token, it raises `KeyError` naming the volume token.  No
categorized `UnrecognizedUnit` failure is produced. -/
theorem C6_unknown_unit_keyerror :
    (∀ (mw c v : ℚ) (cu vu : String), concentration_conversion cu = none →
      calculate_stock_from_powder mw c v cu vu = .error (.keyError cu)) ∧
    (∀ (mw c v cf : ℚ) (cu vu : String), concentration_conversion cu = some cf →
      volume_conversion vu = none →
      calculate_stock_from_powder mw c v cu vu = .error (.keyError vu)) := by
  constructor
  · intro mw c v cu vu hcu
    simp [calculate_stock_from_powder, hcu]
  · intro mw c v cf cu vu hcu hvu
    simp [calculate_stock_from_powder, hcu, hvu]

/-- Witness for C6 (amended): tokens `"X"` and `"gal"` each raise
`KeyError`. -/
theorem C6_unknown_unit_keyerror_witness :
    calculate_stock_from_powder 1 1 1 "X" "mL" = .error (.keyError "X") ∧
    calculate_stock_from_powder 1 1 1 "mM" "gal" = .error (.keyError "gal") :=
  ⟨C6_unknown_unit_keyerror.1 1 1 1 "X" "mL" rfl,
   C6_unknown_unit_keyerror.2 1 1 1 (1 / 1000) "mM" "gal" rfl rfl⟩

/-- C5 counterexample: the claim says the validator returns either a
parsed positive real or one of the failures `Empty`,
`LocaleDecimalComma`, `NotANumber`, `NonPositive`; in fact
`validate_decimal_input` has no positivity check at all: on `"0"` it
returns the valid triple, and the parsed value `0` is not positive. -/
theorem C5_counterexample :
    validate_decimal_input "0" = ⟨true, "0", ""⟩ ∧
    pyFloat "0" = some (.finite 0) ∧ ¬(0 : ℚ) > 0 := by
  refine ⟨?_, ?_, by norm_num⟩
  · unfold validate_decimal_input
    rw [show trimL "0".toList = ['0'] by decide]
    rw [show (['0'] : List Char) = renderFixed false 0 0 by decide]
    dsimp only
    rw [pyFloatCore_renderFixed]
    decide
  · rw [show ("0" : String) = String.mk (pyStrip (renderFixed false 0 0)) by decide,
      pyFloat_strip_renderFixed]
    norm_num [signApply]

/-- C5 (amended): `validate_decimal_input` returns exactly one of four
outcomes: the `Empty` failure on blank input, the `LocaleDecimalComma`
failure when the stripped input contains a comma, a valid triple
carrying the stripped string whenever Python `float(...)` parses it
(any parseable value, including zero and negative numbers — positivity
is checked separately by the caller), and the `NotANumber` failure
otherwise.  In particular `"5,2"` yields the comma failure and is never
parsed as a number. -/
theorem C5_validator_categories :
    (∀ input : String,
      validate_decimal_input input = ⟨false, "", "Please enter a value"⟩ ∨
      validate_decimal_input input = ⟨false, String.mk (trimL input.toList),
        "Please use period (.) for decimals, not comma (,)"⟩ ∨
      validate_decimal_input input = ⟨true, String.mk (trimL input.toList), ""⟩ ∨
      validate_decimal_input input = ⟨false, String.mk (trimL input.toList),
        "Please enter a valid number"⟩) ∧
    validate_decimal_input "5,2" =
      ⟨false, "5,2", "Please use period (.) for decimals, not comma (,)"⟩ ∧
    pyFloat "5,2" = none := by
  refine ⟨?_, by decide, by decide⟩
  intro input
  unfold validate_decimal_input
  dsimp only
  split_ifs with h1 h2 h3
  · exact Or.inl rfl
  · exact Or.inr (Or.inl rfl)
  · exact Or.inr (Or.inr (Or.inl rfl))
  · exact Or.inr (Or.inr (Or.inr rfl))

/-- C4 counterexample: the claim's third concrete scenario says
`format_number 0.00123 = "0.0012"`; the code formats `0.00123` with
`%.4g` (four significant figures), which prints `0.00123`, and the
trailing-zero strip leaves it unchanged — so it does not equal
`"0.0012"`. -/
theorem C4_counterexample :
    format_number (some (123 / 100000)) = "0.00123" ∧
    ("0.00123" : String) ≠ "0.0012" := by
  refine ⟨?_, by decide⟩
  have hx : (123 / 100000 : ℚ) ≠ 0 := by norm_num
  have habs : |(123 / 100000 : ℚ)| = 123 / 100000 := abs_of_pos (by norm_num)
  have hdec : decExp (123 / 100000 : ℚ) = -3 :=
    decExp_eq hx
      (by rw [habs, show ((10 : ℚ) ^ (-3 : ℤ)) = 1 / 1000 by norm_num]; norm_num)
      (by rw [habs, show ((-3 : ℤ) + 1) = (-2 : ℤ) by norm_num,
            show ((10 : ℚ) ^ (-2 : ℤ)) = 1 / 100 by norm_num]; norm_num)
  have hrhe : rhe (|(123 / 100000 : ℚ)| *
      10 ^ ((3 : ℤ) - decExp (123 / 100000 : ℚ))) = 1230 := by
    rw [hdec, habs, show ((3 : ℤ) - (-3 : ℤ)) = (6 : ℤ) by norm_num,
      show ((10 : ℚ) ^ (6 : ℤ)) = 1000000 by norm_num,
      show ((123 : ℚ) / 100000 * 1000000) = ((1230 : ℤ) : ℚ) by norm_num, rhe_intCast]
  have hneg : decide ((123 / 100000 : ℚ) < 0) = false := decide_eq_false (by norm_num)
  rw [format_number_bandg hx (by rw [habs]; norm_num)]
  unfold pyGen4
  rw [if_neg hx, hrhe, hdec, hneg, show ((1230 : ℤ)).toNat = 1230 from rfl]
  rw [if_neg (by decide)]
  decide

/-- C4 (amended): `format_number` renders `None` and `0` as `"0"`, and
every other value through the magnitude-banded precision dispatch —
`%.4g` (four significant figures) below `0.01`, two decimals below
`10`, one decimal below `100`, no decimals at or above `100` — followed
by the trailing-zero-and-point strip.  Concretely `499.123 → "499"`,
`5.234567 → "5.23"`, and `0.00123 → "0.00123"` (four significant
figures of `0.00123`, not the claim's `"0.0012"`). -/
theorem C4_format_magnitude_bands :
    (format_number none = "0" ∧ format_number (some 0) = "0") ∧
    (∀ x : ℚ, x ≠ 0 → format_number (some x) = String.mk (pyStrip (
      if |x| < 1 / 100 then pyGen4 x
      else if |x| < 10 then pyFixed 2 x
      else if |x| < 100 then pyFixed 1 x
      else pyFixed 0 x))) ∧
    (format_number (some (499123 / 1000)) = "499" ∧
     format_number (some (5234567 / 1000000)) = "5.23" ∧
     format_number (some (123 / 100000)) = "0.00123") := by
  refine ⟨⟨rfl, by norm_num [format_number]⟩, fun x hx => format_number_some hx,
    ?_, ?_, C4_counterexample.1⟩
  · have habs : |(499123 / 1000 : ℚ)| = 499123 / 1000 := abs_of_pos (by norm_num)
    have hr : rhe ((499123 : ℚ) / 1000) = 499 := by
      unfold rhe
      rw [show ⌊(499123 / 1000 : ℚ)⌋ = 499 by norm_num]
      rw [if_pos (by norm_num)]
    have hneg : decide ((499123 / 1000 : ℚ) < 0) = false := decide_eq_false (by norm_num)
    rw [format_number_band0 (by rw [habs]; norm_num)]
    unfold pyFixed
    rw [habs, show ((499123 : ℚ) / 1000 * 10 ^ 0) = (499123 : ℚ) / 1000 by norm_num,
      hr, hneg, show ((499 : ℤ)).toNat = 499 from rfl]
    decide
  · have habs : |(5234567 / 1000000 : ℚ)| = 5234567 / 1000000 := abs_of_pos (by norm_num)
    have hr : rhe ((5234567 : ℚ) / 1000000 * 10 ^ 2) = 523 := by
      rw [show ((5234567 : ℚ) / 1000000 * 10 ^ 2) = 5234567 / 10000 by norm_num]
      unfold rhe
      rw [show ⌊(5234567 / 10000 : ℚ)⌋ = 523 by norm_num]
      rw [if_pos (by norm_num)]
    have hneg : decide ((5234567 / 1000000 : ℚ) < 0) = false :=
      decide_eq_false (by norm_num)
    rw [format_number_band2 (by rw [habs]; norm_num) (by rw [habs]; norm_num)]
    unfold pyFixed
    rw [habs, hr, hneg, show ((523 : ℤ)).toNat = 523 from rfl]
    decide

/-- Witness for C4 (amended) at `x = 5`: the band dispatch puts `5` in
the two-decimal band, and `"5.00"` strips to `"5"`. -/
theorem C4_format_magnitude_bands_witness :
    format_number (some 5) = "5" := by
  have habs : |(5 : ℚ)| = 5 := abs_of_pos (by norm_num)
  have h := C4_format_magnitude_bands.2.1 5 (by norm_num)
  rw [h, if_neg (by rw [habs]; norm_num), if_pos (by rw [habs]; norm_num)]
  unfold pyFixed
  rw [habs, show ((5 : ℚ) * 10 ^ 2) = ((500 : ℤ) : ℚ) by norm_num, rhe_intCast,
    show decide ((5 : ℚ) < 0) = false from decide_eq_false (by norm_num),
    show ((500 : ℤ)).toNat = 500 from rfl]
  decide

/-- C8 counterexample: idempotence fails for `1.5·10⁻¹⁰`.  `%.4g`
prints it as `1.5e-10`, and the `rstrip('0')` of line 77 eats the
trailing zero of the exponent, leaving `"1.5e-1"`; parsed back, that is
`0.15`, which formats as `"0.15" ≠ "1.5e-1"`. -/
theorem C8_counterexample :
    format_number (some (15 / 100000000000)) = "1.5e-1" ∧
    pyFloat "1.5e-1" = some (.finite (15 / 100)) ∧
    format_number (some (15 / 100)) = "0.15" ∧
    ("0.15" : String) ≠ "1.5e-1" := by
  refine ⟨?_, ?_, ?_, by decide⟩
  · have hx : (15 / 100000000000 : ℚ) ≠ 0 := by norm_num
    have habs : |(15 / 100000000000 : ℚ)| = 15 / 100000000000 := abs_of_pos (by norm_num)
    have hdec : decExp (15 / 100000000000 : ℚ) = -10 :=
      decExp_eq hx
        (by rw [habs, show ((10 : ℚ) ^ (-10 : ℤ)) = 1 / 10000000000 by norm_num]
            norm_num)
        (by rw [habs, show ((-10 : ℤ) + 1) = (-9 : ℤ) by norm_num,
              show ((10 : ℚ) ^ (-9 : ℤ)) = 1 / 1000000000 by norm_num]
            norm_num)
    have hrhe : rhe (|(15 / 100000000000 : ℚ)| *
        10 ^ ((3 : ℤ) - decExp (15 / 100000000000 : ℚ))) = 1500 := by
      rw [hdec, habs, show ((3 : ℤ) - (-10 : ℤ)) = (13 : ℤ) by norm_num,
        show ((10 : ℚ) ^ (13 : ℤ)) = 10000000000000 by norm_num,
        show ((15 : ℚ) / 100000000000 * 10000000000000) = ((1500 : ℤ) : ℚ) by norm_num,
        rhe_intCast]
    have hneg : decide ((15 / 100000000000 : ℚ) < 0) = false :=
      decide_eq_false (by norm_num)
    rw [format_number_bandg hx (by rw [habs]; norm_num)]
    unfold pyGen4
    rw [if_neg hx, hrhe, hdec, hneg, show ((1500 : ℤ)).toNat = 1500 from rfl,
      if_neg (by decide)]
    decide
  · have h1 : pyFloat "1.5e-1" =
        pyFloatCore ['1', '.', '5', 'e', '-', '1'] := by
      rw [pyFloat, show trimL "1.5e-1".toList = ['1', '.', '5', 'e', '-', '1'] by decide]
    rw [h1, pyFloatCore_cons, show (('1' : Char) == '+') = false by decide,
      show (('1' : Char) == '-') = false by decide]
    simp only [Bool.false_eq_true, if_false]
    rw [pyFloatMag_digit_head '1' _ false (by decide)]
    unfold pyFloatNum
    rw [show (['1', '.', '5', 'e', '-', '1'] : List Char).takeWhile
        (fun c => !(c == 'e' || c == 'E')) = ['1', '.', '5'] by decide,
      show (['1', '.', '5', 'e', '-', '1'] : List Char).dropWhile
        (fun c => !(c == 'e' || c == 'E')) = ['e', '-', '1'] by decide]
    have hpm : parseMant ['1', '.', '5'] = some (3 / 2) := by
      unfold parseMant
      rw [show (['1', '.', '5'] : List Char).takeWhile (fun c => !(c == '.')) =
          ['1'] by decide,
        show (['1', '.', '5'] : List Char).dropWhile (fun c => !(c == '.')) =
          ['.', '5'] by decide]
      dsimp only
      rw [if_neg (by decide), show charsNat? ['1'] = some 1 by decide,
        show charsNat? ['5'] = some 5 by decide]
      dsimp only
      norm_num
    have hpe : parseExp ['-', '1'] = some (-1) := by decide
    dsimp only
    rw [hpm, hpe]
    dsimp only
    congr 1
    rw [signApply]
    simp only [Bool.false_eq_true, if_false]
    rw [show ((10 : ℚ) ^ (-1 : ℤ)) = 1 / 10 by norm_num]
    norm_num
  · have habs : |(15 / 100 : ℚ)| = 15 / 100 := abs_of_pos (by norm_num)
    have hneg : decide ((15 / 100 : ℚ) < 0) = false := decide_eq_false (by norm_num)
    rw [format_number_band2 (by rw [habs]; norm_num) (by rw [habs]; norm_num)]
    unfold pyFixed
    rw [habs, hneg, show ((15 : ℚ) / 100 * 10 ^ 2) = ((15 : ℤ) : ℚ) by norm_num,
      rhe_intCast, show ((15 : ℤ)).toNat = 15 from rfl]
    decide

/-- C8 (amended): formatter idempotence holds on the plain-decimal
regime — for `x = 0` and for every `|x| ≥ 10⁻⁴`, where the output is a
plain fixed-point string — the parse-back value `y` of the formatted
string reformats to the same string.  (For smaller magnitudes the
output is scientific notation, and when its exponent ends in `0` the
trailing-zero strip corrupts it, so idempotence fails there — see the
counterexample.) -/
theorem C8_format_roundtrip (x : ℚ) (h : x = 0 ∨ 1 / 10000 ≤ |x|) :
    ∃ y : ℚ, pyFloat (format_number (some x)) = some (.finite y) ∧
      format_number (some y) = format_number (some x) := by
  rcases h with rfl | h
  · refine ⟨0, ?_, rfl⟩
    have h0 : format_number (some (0 : ℚ)) = "0" := by norm_num [format_number]
    rw [h0, show ("0" : String) = String.mk (pyStrip (renderFixed false 0 0)) by decide,
      pyFloat_strip_renderFixed]
    norm_num [signApply]
  · rcases lt_or_le |x| (1 / 100) with hb | hb
    · exact roundtrip_bandg x h hb
    · rcases lt_or_le |x| 10 with hb2 | hb2
      · exact roundtrip_band2 x hb hb2
      · rcases lt_or_le |x| 100 with hb3 | hb3
        · exact roundtrip_band1 x hb2 hb3
        · exact roundtrip_band0 x hb3

/-- Witness for C8 (amended) at `x = 5/2`. -/
theorem C8_format_roundtrip_witness :
    ∃ y : ℚ, pyFloat (format_number (some (5 / 2))) = some (.finite y) ∧
      format_number (some y) = format_number (some (5 / 2)) :=
  C8_format_roundtrip (5 / 2)
    (Or.inr (by rw [show |(5 / 2 : ℚ)| = 5 / 2 from abs_of_pos (by norm_num)]; norm_num))

/-- C9: when reading the history file ends in a JSON decode failure
(corrupt or unparsable content), `_load_history` returns the empty
list rather than raising, so `get_all_calculations` returns `[]` and
`get_calculation_count` returns `0`. -/
theorem C9_corrupt_history_is_empty
    (read : ReadOutcome (List CalculationRecord)) (h : read = .decodeError) :
    CalculationHistory.load_history read = .ok [] ∧
    CalculationHistory.get_all_calculations read = .ok [] ∧
    CalculationHistory.get_calculation_count read = .ok 0 := by
  subst h
  exact ⟨rfl, rfl, rfl⟩

/-- Witness for C9 at the decode-failure outcome itself. -/
theorem C9_corrupt_history_is_empty_witness :
    CalculationHistory.load_history (ReadOutcome.decodeError) = .ok [] ∧
    CalculationHistory.get_all_calculations (ReadOutcome.decodeError) = .ok [] ∧
    CalculationHistory.get_calculation_count (ReadOutcome.decodeError) = .ok 0 :=
  C9_corrupt_history_is_empty ReadOutcome.decodeError rfl

end DrugCalc
